import Mathlib

/-!
# Verification of perfugo's batch production report engine

Shallow embedding of the formula composition resolution / batch scaling core
from `internal/handlers` (`buildBatchProductionReportData`,
`computeFormulaTotal`, `accumulateFormulaIngredients`,
`sortBatchProductionIngredients`, `pyramidRank`, `normalizeAmount`,
`almostEqual`) together with the pyramid helpers it calls from
`internal/views/pages` (`NormalizePyramidPosition`,
`CanonicalPyramidPosition`, `PyramidPositionLabel`, `DefaultDash`).

Modelling conventions:
* Go `float64` quantities are modelled as exact rationals (`ℚ`).  The spec
  states its numeric properties within float tolerance; the `1e-6` epsilon
  comparator of the source is modelled exactly over `ℚ`.
* Go strings are modelled as Lean `String`; `strings.TrimSpace`,
  `strings.ToLower`, `strings.ToUpper` and `<` are modelled by explicit
  character-list functions (`goTrim`, `goLower`, ...) that agree with Go on
  ASCII data.
* The Go accumulator/memo maps (`map[uint]...`) are modelled as association
  lists threaded through the recursion.  Go's randomized map iteration order
  over the accumulator is made an explicit parameter (`buildReportWithOrder`);
  `buildBatchProductionReportData` instantiates it with first-insertion order.
* The recursive graph walk of `accumulateFormulaIngredients` is embedded with
  a structural fuel parameter; running out of fuel is a distinct
  `fuelExhausted` outcome that does not occur for the fuel bound used by
  `buildBatchProductionReportData` on the inputs studied here (the Go
  traversal always terminates because its path guard bounds the recursion
  depth by the number of distinct formula ids).
* `gorm` storage is modelled as an in-memory snapshot: the `formulas` table,
  the full `formula_ingredients` table, and the `aroma_chemicals` table
  (GORM preloading of `AromaChemical` pointers is lookup in that table; a
  dangling aroma-chemical id makes the fallback fetch fail, modelled as
  `ingredientLookupFailed`).
-/

/- `Rat`'s arithmetic is `@[irreducible]` by default, which blocks kernel
evaluation of the concrete scenarios; restore reducibility locally so that
`decide` can evaluate the embedded engine on concrete snapshots. -/
attribute [local semireducible] Rat.mul Rat.add Rat.sub Rat.inv Rat.ofScientific

namespace Perfugo

/-! ## Go string primitives (ASCII model) -/

/-- Characters treated as whitespace by `strings.TrimSpace` (ASCII subset). -/
def isSpaceChar (c : Char) : Bool :=
  c = ' ' ∨ c = '\t' ∨ c = '\n' ∨ c = '\r'

/-- ASCII lower-casing of one character, as `strings.ToLower` does on ASCII. -/
def lowerChar (c : Char) : Char :=
  if 65 ≤ c.toNat ∧ c.toNat ≤ 90 then Char.ofNat (c.toNat + 32) else c

/-- ASCII upper-casing of one character, as `strings.ToUpper` does on ASCII. -/
def upperChar (c : Char) : Char :=
  if 97 ≤ c.toNat ∧ c.toNat ≤ 122 then Char.ofNat (c.toNat - 32) else c

/-- Model of `strings.ToLower` (ASCII fragment). -/
def goLower (s : String) : String := ⟨s.data.map lowerChar⟩

/-- Model of `strings.TrimSpace` (ASCII fragment). -/
def goTrim (s : String) : String :=
  ⟨((s.data.dropWhile isSpaceChar).reverse.dropWhile isSpaceChar).reverse⟩

/-- Byte-wise lexicographic comparison of Go's `<` on strings (ASCII model). -/
def lexLt : List Char → List Char → Bool
  | [], [] => false
  | [], _ :: _ => true
  | _ :: _, [] => false
  | a :: as, b :: bs => a.toNat < b.toNat || (a.toNat = b.toNat && lexLt as bs)

/-- Go string `<`. -/
def strLt (a b : String) : Bool := lexLt a.data b.data

/-- `strings.ReplaceAll` for a single-character pattern and replacement. -/
def replaceChar (oldC newC : Char) (s : String) : String :=
  ⟨s.data.map (fun c => if c = oldC then newC else c)⟩

/-- Splitting a character list at a separator character
(`strings.Split` on a one-character separator). -/
def splitOnChar (sep : Char) : List Char → List (List Char)
  | [] => [[]]
  | c :: cs =>
    let rest := splitOnChar sep cs
    if c = sep then [] :: rest
    else
      match rest with
      | [] => [[c]]
      | piece :: pieces => (c :: piece) :: pieces

/-- Join a list of character lists with a separator (`strings.Join`). -/
def joinWithChar (sep : Char) : List (List Char) → List Char
  | [] => []
  | [piece] => piece
  | piece :: pieces => piece ++ sep :: joinWithChar sep pieces

/-! ## Data model (`models` package) -/

/-- `models.AromaChemical`, restricted to the fields the report engine reads. -/
structure AromaChemical where
  id : Nat
  ingredientName : String
  casNumber : String
  pyramidPosition : String
  deriving DecidableEq

/-- `models.Formula`, restricted to the fields the report engine reads. -/
structure Formula where
  id : Nat
  name : String
  version : Nat
  deriving DecidableEq

/-- `models.FormulaIngredient`: one composition row.  `amount` is the declared
quantity, `unit` its unit string; exactly one of `aromaChemicalID` /
`subFormulaID` is meant to be set (the engine tolerates other shapes). -/
structure FormulaIngredient where
  formulaId : Nat
  amount : ℚ
  unit : String
  aromaChemicalID : Option Nat
  subFormulaID : Option Nat
  deriving DecidableEq

/-- The read-only storage snapshot the resolution call works against:
the formulas table, the full composition-row table, and the
aroma-chemicals table. -/
structure Snapshot where
  formulas : List Formula
  rows : List FormulaIngredient
  chems : List AromaChemical
  deriving DecidableEq

/-- The error kinds of the report engine (`errBatch*` sentinel errors, plus
the generic record-fetch failure for a dangling aroma-chemical reference, and
the fuel bound of this embedding). -/
inductive BatchError where
  | formulaNotFound
  | invalidQuantity
  | emptyComposition
  | circularReference
  | ingredientLookupFailed
  | fuelExhausted
  deriving DecidableEq

deriving instance DecidableEq for Except

/-! ## Unit normalizer (`normalizeAmount`) -/

/-- `normalizeAmount`: converts an amount/unit pair to grams.
`mg → /1000`, `kg → ×1000`, `ml` and anything else (including `g` and blank)
unchanged; unit matching is on the trimmed, lower-cased unit string. -/
def normalizeAmount (amount : ℚ) (unit : String) : ℚ :=
  let u := goLower (goTrim unit)
  if u = "mg" then amount / 1000
  else if u = "kg" then amount * 1000
  else if u = "ml" then amount
  else amount

/-! ## Pyramid helpers (`pages` package) -/

/-- `pages.allowedPyramidPositions`. -/
def allowedPyramidPositions : List String :=
  ["top", "top-heart", "heart", "heart-base", "base", "all"]

/-- `pages.NormalizePyramidPosition`: trims, lower-cases, replaces `_` and
space by `-`, and accepts only the allowed canonical values (blank is valid
and maps to blank). -/
def normalizePyramidPosition (value : String) : String × Bool :=
  let trimmed := goTrim value
  if trimmed = "" then ("", true)
  else
    let normalized := replaceChar ' ' '-' (replaceChar '_' '-' (goLower trimmed))
    if allowedPyramidPositions.contains normalized then (normalized, true)
    else ("", false)

/-- `pages.CanonicalPyramidPosition`: the normalized value, or the empty string when the
input cannot be canonicalised. -/
def canonicalPyramidPosition (value : String) : String :=
  (normalizePyramidPosition value).1

/-- `pages.PyramidPositionLabel`: human-readable label (each `-`-separated
part capitalised); `pages.DefaultDash` supplies an em-dash for blank. -/
def pyramidPositionLabel (value : String) : String :=
  let normalized := (normalizePyramidPosition value).1
  if normalized = "" then "—"
  else
    let parts := splitOnChar '-' normalized.data
    ⟨joinWithChar '-' (parts.map (fun part =>
      match part with
      | [] => []
      | c :: cs => upperChar c :: cs))⟩

/-- `pyramidRank`: sort rank of a canonical pyramid position. -/
def pyramidRank (value : String) : Nat :=
  if value = "base" then 0
  else if value = "heart-base" ∨ value = "base-heart" then 1
  else if value = "heart" then 2
  else if value = "top-heart" ∨ value = "heart-top" then 3
  else if value = "top" then 4
  else 5

/-- `almostEqual`: the `1e-6` epsilon comparison used by the sort. -/
def almostEqual (a b : ℚ) : Bool := |a - b| ≤ 1 / 1000000

/-! ## Formula total calculator (`computeFormulaTotal`) -/

/-- The `byFormula` grouping: the composition rows owned by one formula id,
in table order (Go builds `map[uint][]models.FormulaIngredient` by appending
in scan order). -/
def rowsOf (rows : List FormulaIngredient) (id : Nat) : List FormulaIngredient :=
  rows.filter (fun r => r.formulaId == id)

/-- The per-call memoization map of formula totals (`totalsMemo`). -/
abbrev Memo := List (Nat × ℚ)

/-- Lookup in the memo map. -/
def memoLookup (memo : Memo) (id : Nat) : Option ℚ :=
  (memo.find? (fun p => p.1 == id)).map (fun p => p.2)

/-- `computeFormulaTotal`: sum of the normalized amounts of the rows directly
owned by `formulaID`, memoized.  The Go function marks `formulaID` in `stack`
while it runs and unmarks it on every exit path, so the `stack` map is
returned unchanged; since the function never recurses, every caller in the
source passes the same, empty, stack. -/
def computeFormulaTotal (src : List FormulaIngredient) (formulaID : Nat)
    (memo : Memo) (stack : List Nat) : Except BatchError (ℚ × Memo) :=
  match memoLookup memo formulaID with
  | some value => .ok (value, memo)
  | none =>
    if formulaID ∈ stack then .error .circularReference
    else
      let ingredients := rowsOf src formulaID
      if ingredients.isEmpty then .error .emptyComposition
      else
        let total := ingredients.foldl
          (fun acc ing => acc + normalizeAmount ing.amount ing.unit) 0
        .ok (total, (formulaID, total) :: memo)

/-! ## Composition flattener / accumulator (`accumulateFormulaIngredients`) -/

/-- `reportIngredientTotal`: one accumulator entry.  The Go struct stores a
`*AromaChemical` that is always non-nil when the entry is created, so the
pointer is modelled as a plain field. -/
structure ReportIngredientTotal where
  chemical : AromaChemical
  baseAmount : ℚ
  deriving DecidableEq

/-- The mutable state the Go traversal threads through its recursion: the
per-ingredient accumulator map (`accumulator`, in first-insertion order) and
the totals memo shared with `computeFormulaTotal` via the `computeTotals`
closure. -/
structure AccSt where
  acc : List (Nat × ReportIngredientTotal)
  memo : Memo
  deriving DecidableEq

/-- Adding `amount` for chemical id `cid` to the accumulator (the Go map
update `accumulator[*ing.AromaChemicalID]`): bump the existing entry —
keeping the chemical metadata attached on first sight — or append a fresh
entry.  The association list carries each key at most once, so updating the
first match is the map semantics. -/
def addToAccumulator : List (Nat × ReportIngredientTotal) → Nat → AromaChemical →
    ℚ → List (Nat × ReportIngredientTotal)
  | [], cid, chem, amount => [(cid, ⟨chem, amount⟩)]
  | p :: rest, cid, chem, amount =>
    if p.1 = cid then (p.1, ⟨p.2.chemical, p.2.baseAmount + amount⟩) :: rest
    else p :: addToAccumulator rest cid chem amount

/-- The body of `accumulateFormulaIngredients`: processes the remaining rows
`todo` of the formula at the head of `path`, with inherited scale `factor`.
The recursive call on a sub-formula row is the inlined body of
`accumulateFormulaIngredients` itself (entry guard, empty-composition check,
then the row loop of the sub-formula with the extended path).  `fuel`
decreases on every step purely to make the recursion structural; the Go
code's own termination argument is its path guard. -/
def accRows (src : List FormulaIngredient) (chems : List AromaChemical) :
    Nat → List FormulaIngredient → ℚ → List Nat → AccSt → Except BatchError AccSt
  | 0, _, _, _, _ => .error .fuelExhausted
  | _ + 1, [], _, _, st => .ok st
  | fuel + 1, ing :: rest, factor, path, st =>
    let amount := normalizeAmount ing.amount ing.unit * factor
    if amount ≤ 0 then accRows src chems fuel rest factor path st
    else
      match ing.aromaChemicalID with
      | some cid =>
        match chems.find? (fun c => c.id == cid) with
        | none => .error .ingredientLookupFailed
        | some chem =>
          accRows src chems fuel rest factor path
            { st with acc := addToAccumulator st.acc cid chem amount }
      | none =>
        match ing.subFormulaID with
        | some subID =>
          if subID ≠ 0 then
            match computeFormulaTotal src subID st.memo [] with
            | .error e => .error e
            | .ok (subTotal, memo') =>
              let st := { st with memo := memo' }
              if subTotal ≤ 0 then accRows src chems fuel rest factor path st
              else if subID ∈ path then .error .circularReference
              else
                let srows := rowsOf src subID
                if srows.isEmpty then .error .emptyComposition
                else
                  match accRows src chems fuel srows (amount / subTotal) (subID :: path) st with
                  | .error e => .error e
                  | .ok st' => accRows src chems fuel rest factor path st'
          else accRows src chems fuel rest factor path st
        | none => accRows src chems fuel rest factor path st

/-- `accumulateFormulaIngredients`: guard against re-entry on `formulaID`,
fail on an empty composition, then walk the rows.  The Go function clears
`formulaID` from the path on exit, so the path behaves as a downward
parameter of the recursion. -/
def accumulateFormulaIngredients (src : List FormulaIngredient)
    (chems : List AromaChemical) (fuel : Nat) (formulaID : Nat) (factor : ℚ)
    (path : List Nat) (st : AccSt) : Except BatchError AccSt :=
  if formulaID ∈ path then .error .circularReference
  else
    let rows := rowsOf src formulaID
    if rows.isEmpty then .error .emptyComposition
    else accRows src chems fuel rows factor (formulaID :: path) st

/-! ## Report rows, sort policy and assembly -/

/-- `pages.BatchProductionReportIngredient`. -/
structure BatchProductionReportIngredient where
  order : Nat
  ingredientName : String
  casNumber : String
  pyramid : String
  pyramidLabel : String
  baseQuantity : ℚ
  finalQuantity : ℚ
  unit : String
  deriving DecidableEq

/-- Emission of one accumulator entry as a report row: rows whose scaled
final quantity is not positive are dropped (Go also skips a nil chemical,
which cannot occur for a stored entry). -/
def emitRow (scale : ℚ) (t : ReportIngredientTotal) :
    Option BatchProductionReportIngredient :=
  let finalQuantity := t.baseAmount * scale
  if finalQuantity ≤ 0 then none
  else some
    { order := 0
      ingredientName := t.chemical.ingredientName
      casNumber := goTrim t.chemical.casNumber
      pyramid := canonicalPyramidPosition t.chemical.pyramidPosition
      pyramidLabel := pyramidPositionLabel t.chemical.pyramidPosition
      baseQuantity := t.baseAmount
      finalQuantity := finalQuantity
      unit := "g" }

/-- The three-key comparator of `sortBatchProductionIngredients`:
pyramid rank ascending, then final quantity descending with the `1e-6`
tolerance, then lower-cased ingredient name ascending. -/
def batchIngredientLt (a b : BatchProductionReportIngredient) : Bool :=
  let pi := pyramidRank a.pyramid
  let pj := pyramidRank b.pyramid
  if pi ≠ pj then pi < pj
  else if ¬ almostEqual a.finalQuantity b.finalQuantity then
    b.finalQuantity < a.finalQuantity
  else strLt (goLower a.ingredientName) (goLower b.ingredientName)

/-- Stable insertion of a row into the already-sorted list of the rows that
followed it: `x` walks past exactly the rows strictly below it and lands
before everything it ties with (which all came later in the original
order).  Iterated, this is a stable sort and therefore agrees with Go's
`sort.SliceStable` whenever the comparator is a strict weak order. -/
def insertRow (x : BatchProductionReportIngredient) :
    List BatchProductionReportIngredient → List BatchProductionReportIngredient
  | [] => [x]
  | h :: t => if batchIngredientLt h x then h :: insertRow x t else x :: h :: t

/-- `sortBatchProductionIngredients`, modelled as stable insertion sort. -/
def sortBatchProductionIngredients :
    List BatchProductionReportIngredient → List BatchProductionReportIngredient
  | [] => []
  | x :: xs => insertRow x (sortBatchProductionIngredients xs)

/-- Assigning ranks `n, n+1, ...` along a row list. -/
def assignOrdersFrom (n : Nat) :
    List BatchProductionReportIngredient → List BatchProductionReportIngredient
  | [] => []
  | x :: xs => { x with order := n } :: assignOrdersFrom (n + 1) xs

/-- Assigning the 1-based `Order` rank in sorted order
(the `for idx := range reportIngredients` loop). -/
def assignOrders (l : List BatchProductionReportIngredient) :
    List BatchProductionReportIngredient :=
  assignOrdersFrom 1 l

/-- `%03d` formatting of the formula version in the lot number. -/
def pad3 (n : Nat) : String :=
  let s := toString n
  if s.length ≥ 3 then s else String.mk (List.replicate (3 - s.length) '0') ++ s

/-- `pages.BatchProductionReportData`.  `runDate` stands for the injected
clock value `nowFunc().UTC()`, already rendered in the `20060102` layout used
by the lot number. -/
structure BatchProductionReportData where
  formulaName : String
  formulaVersion : Nat
  targetQuantity : ℚ
  targetUnit : String
  baseBatchQuantity : ℚ
  baseBatchUnit : String
  scaleFactor : ℚ
  lotNumber : String
  runDate : String
  ingredients : List BatchProductionReportIngredient
  deriving DecidableEq

/-- Everything `buildBatchProductionReportData` computes before rendering the
row list: the loaded formula, the base total, the scale factor, the target
quantity and the final accumulator state. -/
structure CoreResult where
  formula : Formula
  targetQuantity : ℚ
  baseTotal : ℚ
  scale : ℚ
  state : AccSt
  deriving DecidableEq

/-- Fuel bound used by the embedding at top level; large enough that the
bounded traversal of the scenarios below never exhausts it. -/
def defaultFuel (snap : Snapshot) : Nat :=
  (snap.rows.length + 2) ^ (snap.rows.length + 2)

/-- The target-quantity-independent part of the resolution pipeline of
`buildBatchProductionReportData`: load the formula (`FormulaNotFound` when
the id is absent), check the target's composition is non-empty, compute the
memoized base total, reject a non-positive base total, and run the
accumulator from factor `1.0`.  The target quantity is used by the Go
function only after this point, to form the scale factor. -/
def resolveFormula (snap : Snapshot) (formulaID : Nat) :
    Except BatchError (Formula × ℚ × AccSt) :=
  match snap.formulas.find? (fun f => f.id == formulaID) with
  | none => .error .formulaNotFound
  | some formula =>
    if (rowsOf snap.rows formulaID).isEmpty then .error .emptyComposition
    else
      match computeFormulaTotal snap.rows formulaID [] [] with
      | .error e => .error e
      | .ok (baseTotal, memo) =>
        if baseTotal ≤ 0 then .error .invalidQuantity
        else
          match accumulateFormulaIngredients snap.rows snap.chems
              (defaultFuel snap) formulaID 1 [] ⟨[], memo⟩ with
          | .error e => .error e
          | .ok st => .ok (formula, baseTotal, st)

/-- The resolution pipeline including the scale factor
`targetQuantity / baseTotal`.  The Go `NaN`/`Inf` guard on the scale cannot
fire over `ℚ` since `baseTotal > 0` holds at the division. -/
def buildReportCore (snap : Snapshot) (formulaID : Nat) (targetQuantity : ℚ) :
    Except BatchError CoreResult :=
  match resolveFormula snap formulaID with
  | .error e => .error e
  | .ok (formula, baseTotal, st) =>
    .ok ⟨formula, targetQuantity, baseTotal, targetQuantity / baseTotal, st⟩

/-- The report rows emitted from the accumulator before sorting, given the
order in which Go's (randomized) `range` over the accumulator map yields the
chemical ids. -/
def emittedRows (st : AccSt) (scale : ℚ) (iterOrder : List Nat) :
    List BatchProductionReportIngredient :=
  iterOrder.filterMap (fun cid =>
    match st.acc.find? (fun p => p.1 == cid) with
    | none => none
    | some p => emitRow scale p.2)

/-- Rendering the final report from a finished core result, given the
accumulator iteration order. -/
def assembleReport (core : CoreResult) (runDate : String) (iterOrder : List Nat) :
    BatchProductionReportData :=
  let emitted := emittedRows core.state core.scale iterOrder
  let ranked := assignOrders (sortBatchProductionIngredients emitted)
  { formulaName := core.formula.name
    formulaVersion := core.formula.version
    targetQuantity := core.targetQuantity
    targetUnit := "g"
    baseBatchQuantity := core.baseTotal
    baseBatchUnit := "g"
    scaleFactor := core.scale
    lotNumber := "PERF-" ++ runDate ++ "-" ++ pad3 core.formula.version
    runDate := runDate
    ingredients := ranked }

/-- `buildBatchProductionReportData` with an explicit accumulator iteration
order (Go's map iteration order is not deterministic). -/
def buildReportWithOrder (snap : Snapshot) (formulaID : Nat)
    (targetQuantity : ℚ) (runDate : String) (iterOrder : List Nat) :
    Except BatchError BatchProductionReportData :=
  match buildReportCore snap formulaID targetQuantity with
  | .error e => .error e
  | .ok core => .ok (assembleReport core runDate iterOrder)

/-- `buildBatchProductionReportData`, with the accumulator enumerated in
first-insertion order. -/
def buildBatchProductionReportData (snap : Snapshot) (formulaID : Nat)
    (targetQuantity : ℚ) (runDate : String) :
    Except BatchError BatchProductionReportData :=
  match buildReportCore snap formulaID targetQuantity with
  | .error e => .error e
  | .ok core => .ok (assembleReport core runDate (core.state.acc.map (fun p => p.1)))

/-! ## Derived and spec-side notions used by the claims -/

/-- The (unmemoized) value `computeFormulaTotal` computes for a formula with
at least one row: the sum of the normalized amounts of all of its direct
rows. -/
def formulaTotalValue (src : List FormulaIngredient) (id : Nat) : ℚ :=
  (rowsOf src id).foldl (fun acc ing => acc + normalizeAmount ing.amount ing.unit) 0

/-- The sub-formula reference graph of a row snapshot: `refEdge src a b`
holds when some row owned by `a` references `b` as a sub-formula. -/
def refEdge (src : List FormulaIngredient) (a b : Nat) : Prop :=
  ∃ r ∈ src, r.formulaId = a ∧ r.subFormulaID = some b

/-- The reference graph reachable from `fid` is acyclic. -/
def AcyclicFrom (src : List FormulaIngredient) (fid : Nat) : Prop :=
  ∀ x, Relation.ReflTransGen (refEdge src) fid x →
    ¬ Relation.TransGen (refEdge src) x x

/-- An edge of the reference graph that the resolution actually descends
through: a sub-formula row with a positive normalized amount whose target is
a non-zero id with a positive base total (rows failing these guards are
skipped by `accumulateFormulaIngredients`). -/
def liveEdge (src : List FormulaIngredient) (a b : Nat) : Prop :=
  ∃ r ∈ src, r.formulaId = a ∧ r.aromaChemicalID = none ∧
    r.subFormulaID = some b ∧ b ≠ 0 ∧
    0 < normalizeAmount r.amount r.unit ∧ 0 < formulaTotalValue src b

/-- The total contribution of one formula expansion to one chemical id,
written as the spec describes it: every composition row contributes
independently, a chemical row its own scaled amount, a sub-formula row the
recursively and independently scaled contributions of its sub-formula
(no state threading).  The guards mirror `accRows` so that the two
recursions traverse the same tree; the fuel mirrors the embedding's fuel. -/
def contribRows (src : List FormulaIngredient) :
    Nat → List FormulaIngredient → ℚ → List Nat → Nat → ℚ
  | 0, _, _, _, _ => 0
  | _ + 1, [], _, _, _ => 0
  | fuel + 1, ing :: rest, factor, path, cid =>
    let amount := normalizeAmount ing.amount ing.unit * factor
    if amount ≤ 0 then contribRows src fuel rest factor path cid
    else
      match ing.aromaChemicalID with
      | some c => (if c = cid then amount else 0) + contribRows src fuel rest factor path cid
      | none =>
        match ing.subFormulaID with
        | some subID =>
          if subID ≠ 0 then
            let subTotal := formulaTotalValue src subID
            if subTotal ≤ 0 then contribRows src fuel rest factor path cid
            else if subID ∈ path then 0
            else if (rowsOf src subID).isEmpty then 0
            else contribRows src fuel (rowsOf src subID) (amount / subTotal) (subID :: path) cid
              + contribRows src fuel rest factor path cid
          else contribRows src fuel rest factor path cid
        | none => contribRows src fuel rest factor path cid

/-- The sum of every reference path's independently scaled contribution to
chemical `cid`, starting from the target formula at factor `1.0`. -/
def pathContribution (snap : Snapshot) (fid cid : Nat) : ℚ :=
  contribRows snap.rows (defaultFuel snap) (rowsOf snap.rows fid) 1 [fid] cid

/-- The global reading of the sort-policy claim: no row that appears later
in the report compares strictly below an earlier row under the three-key
comparator. -/
def pairwiseOrderedB : List BatchProductionReportIngredient → Bool
  | [] => true
  | x :: xs => xs.all (fun y => !batchIngredientLt y x) && pairwiseOrderedB xs

/-- Forgetting the rank field of a report row (rank is positional data
assigned after sorting). -/
def stripOrder (r : BatchProductionReportIngredient) : BatchProductionReportIngredient :=
  { r with order := 0 }

/-- Modelled from `GenerateBatchProductionReport` (the HTTP handler): the
submission is rejected with a 400 before `buildBatchProductionReportData`
is invoked when the parsed target quantity is not positive
(`err != nil || targetQuantity <= 0`). -/
def handlerRejectsTargetQuantity (targetQuantity : ℚ) : Bool :=
  targetQuantity ≤ 0

/-! ## Concrete snapshots used by the scenario theorems -/

/-- Scenario B snapshot: formula `F`(1) holds 10 g of chemical `X`(1, base)
and 5 g of sub-formula `S`(2); `S` holds 3 g of `X` and 2 g of `Y`(2, top). -/
def snapB : Snapshot :=
  { formulas := [⟨1, "F", 1⟩, ⟨2, "S", 1⟩]
    chems := [⟨1, "X", "", "base"⟩, ⟨2, "Y", "", "top"⟩]
    rows :=
      [ ⟨1, 10, "g", some 1, none⟩
      , ⟨1, 5, "g", none, some 2⟩
      , ⟨2, 3, "g", some 1, none⟩
      , ⟨2, 2, "g", some 2, none⟩ ] }

example :
    (buildBatchProductionReportData snapB 1 30 "20250102").map
      (fun r => (r.baseBatchQuantity, r.scaleFactor,
        r.ingredients.map (fun i => (i.order, i.ingredientName, i.finalQuantity)))) =
    .ok (15, 2, [(1, "X", 26), (2, "Y", 4)]) := by decide

/-- Scenario C snapshot: formula `A`(1) references sub-formula `B`(2) and
`B` references `A` back. -/
def snapCyclic : Snapshot :=
  { formulas := [⟨1, "A", 1⟩, ⟨2, "B", 1⟩]
    chems := []
    rows := [⟨1, 5, "g", none, some 2⟩, ⟨2, 5, "g", none, some 1⟩] }

example : resolveFormula snapCyclic 1 = .error .circularReference := by decide

/-- Diamond snapshot: formula `F`(1) has two sibling rows referencing the
same sub-formula `S`(2); `S` holds one chemical row. -/
def snapDiamond : Snapshot :=
  { formulas := [⟨1, "F", 1⟩, ⟨2, "S", 1⟩]
    chems := [⟨1, "X", "", "top"⟩]
    rows := [⟨1, 5, "g", none, some 2⟩, ⟨1, 5, "g", none, some 2⟩, ⟨2, 3, "g", some 1, none⟩] }

example :
    (buildBatchProductionReportData snapDiamond 1 20 "20250102").map
      (fun r => r.ingredients.map (fun i => (i.ingredientName, i.finalQuantity))) =
    .ok [("X", 20)] := by decide

/-- A one-row formula (Scenario A shape), used by the zero-quantity
counterexample: `F`(1) holds 10 g of `X`(1, top). -/
def snapSingle : Snapshot :=
  { formulas := [⟨1, "F", 1⟩]
    chems := [⟨1, "X", "", "top"⟩]
    rows := [⟨1, 10, "g", some 1, none⟩] }

example :
    (buildBatchProductionReportData snapSingle 1 0 "20250102").map
      (fun r => r.ingredients) = .ok [] := by decide

/-- Nested-empty snapshot: `F`(1) references sub-formula `S`(2), and `S` has
zero composition rows. -/
def snapNestedEmpty : Snapshot :=
  { formulas := [⟨1, "F", 1⟩, ⟨2, "S", 1⟩]
    chems := []
    rows := [⟨1, 5, "g", none, some 2⟩] }

example : buildBatchProductionReportData snapNestedEmpty 1 7 "20250102"
    = .error .emptyComposition := by decide

/-- Dangling-sub snapshot: `F`(1) references sub-formula id 99, which exists
nowhere in the snapshot. -/
def snapDanglingSub : Snapshot :=
  { formulas := [⟨1, "F", 1⟩]
    chems := []
    rows := [⟨1, 5, "g", none, some 99⟩] }

example : buildBatchProductionReportData snapDanglingSub 1 7 "20250102"
    = .error .emptyComposition := by decide

/-- Phantom-row snapshot: besides 10 g of `X`, formula `F`(1) holds a 5 g
row with neither reference set and a 5 g row whose sub-formula id is 0. -/
def snapPhantom : Snapshot :=
  { formulas := [⟨1, "F", 1⟩]
    chems := [⟨1, "X", "", "top"⟩]
    rows :=
      [ ⟨1, 10, "g", some 1, none⟩
      , ⟨1, 5, "g", none, none⟩
      , ⟨1, 5, "g", none, some 0⟩ ] }

example :
    (buildBatchProductionReportData snapPhantom 1 20 "20250102").map
      (fun r => (r.baseBatchQuantity, r.scaleFactor,
        r.ingredients.map (fun i => (i.ingredientName, i.finalQuantity)))) =
    .ok (20, 1, [("X", 10)]) := by decide

/-- Epsilon-chain snapshot for the sort policy: three chemicals of the same
pyramid rank whose quantities form a non-transitive chain of `1e-6` ties:
`10`, `10 + 9·10⁻⁷` and `10 + 18·10⁻⁷` with names `a`, `b`, `c`. -/
def snapEpsChain : Snapshot :=
  { formulas := [⟨1, "F", 1⟩]
    chems := [⟨1, "a", "", "top"⟩, ⟨2, "b", "", "top"⟩, ⟨3, "c", "", "top"⟩]
    rows :=
      [ ⟨1, 10, "g", some 1, none⟩
      , ⟨1, 10 + 9 / 10000000, "g", some 2, none⟩
      , ⟨1, 10 + 18 / 10000000, "g", some 3, none⟩ ] }

/-- The base total of `snapEpsChain`'s formula, used as target so the scale
factor is exactly 1. -/
def epsChainTotal : ℚ := 30 + 27 / 10000000

example :
    (buildBatchProductionReportData snapEpsChain 1 epsChainTotal ("20250102")).map
      (fun r => pairwiseOrderedB r.ingredients) = .ok false := by decide

/-- Name-tie snapshot: two distinct chemicals whose names agree after
lower-casing and whose final quantities are equal, so all three sort keys
tie. -/
def snapNameTie : Snapshot :=
  { formulas := [⟨1, "F", 1⟩]
    chems := [⟨1, "Rose", "", "top"⟩, ⟨2, "rOSE", "", "top"⟩]
    rows := [⟨1, 5, "g", some 1, none⟩, ⟨1, 5, "g", some 2, none⟩] }

example :
    buildReportWithOrder snapNameTie 1 10 "20250102" [2, 1]
      ≠ buildReportWithOrder snapNameTie 1 10 "20250102" [1, 2] := by decide

/-- Doubling-reorder snapshot: two same-rank chemicals whose base amounts
differ by `7.5·10⁻⁷` — a `1e-6` tie at scale 1 that breaks at scale 2 —
with names chosen so the tie-break order disagrees with the quantity
order. -/
def snapDoubling : Snapshot :=
  { formulas := [⟨1, "F", 1⟩]
    chems := [⟨1, "b", "", "top"⟩, ⟨2, "a", "", "top"⟩]
    rows :=
      [ ⟨1, 1 + 75 / 100000000, "g", some 1, none⟩
      , ⟨1, 1, "g", some 2, none⟩ ] }

/-- The base total of `snapDoubling`'s formula. -/
def doublingTotal : ℚ := 2 + 75 / 100000000

example :
    (buildBatchProductionReportData snapDoubling 1 doublingTotal ("20250102")).map
      (fun r => r.ingredients.map (fun i => i.finalQuantity)) =
    .ok [1, 1 + 75 / 100000000] := by decide

example :
    (buildBatchProductionReportData snapDoubling 1 (2 * doublingTotal) "20250102").map
      (fun r => r.ingredients.map (fun i => i.finalQuantity)) =
    .ok [2 + 15 / 10000000, 2] := by decide

/-! ## Sort policy lemmas -/

theorem almostEqual_comm (a b : ℚ) : almostEqual a b = almostEqual b a := by
  simp [almostEqual, abs_sub_comm]

theorem lexLt_asymm : ∀ l1 l2 : List Char, lexLt l1 l2 = true → lexLt l2 l1 = false
  | [], [], h => by simp [lexLt] at h
  | [], _ :: _, _ => by simp [lexLt]
  | _ :: _, [], h => by simp [lexLt] at h
  | a :: as, b :: bs, h => by
    simp only [lexLt, Bool.or_eq_true, Bool.and_eq_true, decide_eq_true_eq] at h
    rcases h with h | ⟨he, hr⟩
    · have h1 : decide (b.toNat < a.toNat) = false := by simp; omega
      have h2 : decide (b.toNat = a.toNat) = false := by simp; omega
      simp [lexLt, h1, h2]
    · have h1 : decide (b.toNat < a.toNat) = false := by simp; omega
      simp [lexLt, h1, lexLt_asymm as bs hr]

theorem strLt_asymm (a b : String) (h : strLt a b = true) : strLt b a = false :=
  lexLt_asymm a.data b.data h

/-- The three-key comparator is asymmetric: it never orders two rows both
ways. -/
theorem batchIngredientLt_asymm (a b : BatchProductionReportIngredient)
    (h : batchIngredientLt a b = true) : batchIngredientLt b a = false := by
  by_cases h1 : pyramidRank a.pyramid = pyramidRank b.pyramid
  · by_cases h2 : almostEqual a.finalQuantity b.finalQuantity = true
    · have h2' : almostEqual b.finalQuantity a.finalQuantity = true := by
        rw [almostEqual_comm]; exact h2
      simp only [batchIngredientLt, h1, h2, h2', ne_eq, not_true_eq_false, if_false,
        Bool.not_true, Bool.false_eq_true, not_false_eq_true] at h ⊢
      exact strLt_asymm _ _ h
    · have h2' : ¬ almostEqual b.finalQuantity a.finalQuantity = true := by
        rw [almostEqual_comm]; exact h2
      simp only [batchIngredientLt, h1, h2, h2', ne_eq, not_true_eq_false, if_false,
        Bool.false_eq_true, not_false_eq_true, if_true, decide_eq_true_eq] at h ⊢
      exact decide_eq_false (not_lt.mpr (le_of_lt h))
  · have h1' : ¬ pyramidRank b.pyramid = pyramidRank a.pyramid := fun e => h1 e.symm
    simp only [batchIngredientLt, ne_eq, h1, h1', not_false_eq_true, if_true,
      decide_eq_true_eq] at h ⊢
    exact decide_eq_false (by omega)

theorem insertRow_perm (x : BatchProductionReportIngredient) (l : List BatchProductionReportIngredient) :
    List.Perm (insertRow x l) (x :: l) := by
  induction l with
  | nil => simp [insertRow]
  | cons h t ih =>
    simp only [insertRow]
    split
    · exact List.Perm.trans (List.Perm.cons h ih) (List.Perm.swap x h t)
    · exact List.Perm.refl _

/-- The sorted list is a permutation of its input. -/
theorem sortBatchProductionIngredients_perm (l : List BatchProductionReportIngredient) :
    List.Perm (sortBatchProductionIngredients l) l := by
  induction l with
  | nil => simp [sortBatchProductionIngredients]
  | cons x xs ih =>
    exact List.Perm.trans (insertRow_perm x (sortBatchProductionIngredients xs))
      (List.Perm.cons x ih)

/-- Adjacent pairs of an insertion-sorted list are never inverted under the
comparator (this needs only the comparator's asymmetry, not transitivity). -/
theorem insertRow_chain' (x : BatchProductionReportIngredient)
    (l : List BatchProductionReportIngredient)
    (hl : List.Chain' (fun a b => batchIngredientLt b a = false) l) :
    List.Chain' (fun a b => batchIngredientLt b a = false) (insertRow x l) := by
  induction l with
  | nil => simp [insertRow]
  | cons h t ih =>
    simp only [insertRow]
    split
    · rename_i hx
      have ht := hl.tail
      have hrec := ih ht
      cases t with
      | nil =>
        simp only [insertRow]
        exact List.Chain'.cons (batchIngredientLt_asymm h x hx) (List.chain'_singleton _)
      | cons h2 t2 =>
        by_cases hx2 : batchIngredientLt h2 x = true
        · simp only [insertRow, hx2, if_pos] at hrec ⊢
          refine List.Chain'.cons ?_ hrec
          rcases List.chain'_cons.mp hl with ⟨hh, _⟩
          exact hh
        · simp only [insertRow, hx2, if_neg, Bool.not_eq_true] at hrec ⊢
          exact List.Chain'.cons (batchIngredientLt_asymm h x hx) hrec
    · rename_i hx
      exact List.Chain'.cons (by simpa using hx) hl

theorem sortBatchProductionIngredients_chain' (l : List BatchProductionReportIngredient) :
    List.Chain' (fun a b => batchIngredientLt b a = false)
      (sortBatchProductionIngredients l) := by
  induction l with
  | nil => simp [sortBatchProductionIngredients]
  | cons x xs ih => exact insertRow_chain' x _ ih

/-! ## Rank assignment lemmas -/

theorem assignOrdersFrom_length (n : Nat) (l : List BatchProductionReportIngredient) :
    (assignOrdersFrom n l).length = l.length := by
  induction l generalizing n with
  | nil => simp [assignOrdersFrom]
  | cons y ys ihy => simp [assignOrdersFrom, ihy]

theorem assignOrdersFrom_get (n : Nat) (l : List BatchProductionReportIngredient) :
    ∀ i (h : i < (assignOrdersFrom n l).length) (h' : i < l.length),
      (assignOrdersFrom n l).get ⟨i, h⟩ = { l.get ⟨i, h'⟩ with order := n + i } := by
  induction l generalizing n with
  | nil => intro i h h'; simp at h'
  | cons x xs ih =>
    intro i h h'
    cases i with
    | zero => simp [assignOrdersFrom]
    | succ j =>
      have h2 : j < (assignOrdersFrom (n + 1) xs).length := by
        rw [assignOrdersFrom_length]
        simp only [List.length_cons] at h'
        omega
      have h3 : j < xs.length := by
        rw [assignOrdersFrom_length] at h2
        exact h2
      simp only [assignOrdersFrom, List.get_cons_succ]
      rw [ih (n + 1) j h2 h3]
      have harith : n + 1 + j = n + (j + 1) := by omega
      rw [harith]

/-- The comparator never reads the rank field. -/
theorem batchIngredientLt_order_left (a b : BatchProductionReportIngredient) (n : Nat) :
    batchIngredientLt { a with order := n } b = batchIngredientLt a b := rfl

theorem batchIngredientLt_order_right (a b : BatchProductionReportIngredient) (n : Nat) :
    batchIngredientLt a { b with order := n } = batchIngredientLt a b := rfl

theorem assignOrdersFrom_chain' (n : Nat) (l : List BatchProductionReportIngredient)
    (hl : List.Chain' (fun a b => batchIngredientLt b a = false) l) :
    List.Chain' (fun a b => batchIngredientLt b a = false) (assignOrdersFrom n l) := by
  induction l generalizing n with
  | nil => simp [assignOrdersFrom]
  | cons x xs ih =>
    cases xs with
    | nil => simp [assignOrdersFrom]
    | cons y ys =>
      rcases List.chain'_cons.mp hl with ⟨hxy, htail⟩
      simp only [assignOrdersFrom]
      refine List.chain'_cons.mpr ⟨?_, ?_⟩
      · show batchIngredientLt { y with order := n + 1 } { x with order := n } = false
        rw [batchIngredientLt_order_left, batchIngredientLt_order_right]
        exact hxy
      · exact ih (n + 1) htail

theorem assignOrdersFrom_map_stripOrder (n : Nat) (l : List BatchProductionReportIngredient) :
    (assignOrdersFrom n l).map stripOrder = l.map stripOrder := by
  induction l generalizing n with
  | nil => simp [assignOrdersFrom]
  | cons x xs ih => simp [assignOrdersFrom, stripOrder, ih]

/-! ## Total calculator lemmas -/

/-- Invariant of the totals memo: every memoized entry holds the true direct
total of a formula that has at least one row. -/
def MemoWF (src : List FormulaIngredient) (memo : Memo) : Prop :=
  ∀ p ∈ memo, p.2 = formulaTotalValue src p.1 ∧ rowsOf src p.1 ≠ []

theorem memoWF_nil (src : List FormulaIngredient) : MemoWF src [] := by
  intro p hp; simp at hp

/-- With the empty in-progress stack the source always passes,
`computeFormulaTotal` cannot report a circular reference. -/
theorem computeFormulaTotal_stack_nil_ne_circular (src : List FormulaIngredient)
    (id : Nat) (memo : Memo) :
    computeFormulaTotal src id memo [] ≠ .error .circularReference := by
  unfold computeFormulaTotal
  cases memoLookup memo id with
  | some v => simp
  | none =>
    simp only [List.not_mem_nil, if_false]
    split <;> simp

/-- `computeFormulaTotal` only ever fails with `EmptyComposition` or
`CircularReference`. -/
theorem computeFormulaTotal_error_cases (src : List FormulaIngredient)
    (id : Nat) (memo : Memo) (stack : List Nat) (e : BatchError)
    (h : computeFormulaTotal src id memo stack = .error e) :
    e = .emptyComposition ∨ e = .circularReference := by
  unfold computeFormulaTotal at h
  cases hm : memoLookup memo id with
  | some v => rw [hm] at h; simp at h
  | none =>
    rw [hm] at h
    simp only at h
    split at h
    · simp only [Except.error.injEq] at h
      right; exact h.symm
    · split at h
      · simp only [Except.error.injEq] at h
        left; exact h.symm
      · simp at h

/-- On success, `computeFormulaTotal` returns the true direct total, the
formula is known non-empty, and the memo invariant is preserved; moreover
every entry of the old memo survives into the new one. -/
theorem computeFormulaTotal_ok (src : List FormulaIngredient) (id : Nat)
    (memo : Memo) (stack : List Nat) (v : ℚ) (memo' : Memo)
    (hwf : MemoWF src memo)
    (h : computeFormulaTotal src id memo stack = .ok (v, memo')) :
    v = formulaTotalValue src id ∧ rowsOf src id ≠ [] ∧ MemoWF src memo' ∧
      ∀ p ∈ memo, p ∈ memo' := by
  unfold computeFormulaTotal at h
  cases hm : memoLookup memo id with
  | some w =>
    rw [hm] at h
    simp only [Except.ok.injEq, Prod.mk.injEq] at h
    obtain ⟨hv, hmemo⟩ := h
    have hfind : ∃ p ∈ memo, p.1 = id ∧ p.2 = w := by
      unfold memoLookup at hm
      cases hf : memo.find? (fun p => p.1 == id) with
      | none => rw [hf] at hm; simp at hm
      | some p =>
        rw [hf] at hm
        simp at hm
        have hmem := List.mem_of_find?_eq_some hf
        have hpred := List.find?_some hf
        simp only [beq_iff_eq] at hpred
        exact ⟨p, hmem, hpred, by rw [hm]⟩
    obtain ⟨p, hp, hp1, hp2⟩ := hfind
    obtain ⟨hval, hne⟩ := hwf p hp
    subst hmemo
    refine ⟨?_, ?_, hwf, fun q hq => hq⟩
    · rw [← hv, ← hp2, hval, hp1]
    · rw [← hp1]; exact hne
  | none =>
    rw [hm] at h
    simp only at h
    split at h
    · simp at h
    · split at h
      · simp at h
      · rename_i hne
        simp only [Except.ok.injEq, Prod.mk.injEq] at h
        obtain ⟨hv, hmemo⟩ := h
        have hrows : rowsOf src id ≠ [] := by
          intro hcon
          rw [hcon] at hne
          simp at hne
        subst hv
        subst hmemo
        refine ⟨rfl, hrows, ?_, ?_⟩
        · intro p hp
          rcases List.mem_cons.mp hp with hp | hp
          · subst hp
            exact ⟨rfl, hrows⟩
          · exact hwf p hp
        · intro p hp
          exact List.mem_cons_of_mem _ hp

/-! ## Accumulator lemmas -/

/-- The running base amount stored for a chemical id (0 if absent). -/
def accAmount (acc : List (Nat × ReportIngredientTotal)) (cid : Nat) : ℚ :=
  match acc.find? (fun p => p.1 == cid) with
  | some p => p.2.baseAmount
  | none => 0

/-- Invariant of the accumulator: every stored amount is positive and every
entry carries the chemical record its id resolves to. -/
def AccWF (chems : List AromaChemical) (acc : List (Nat × ReportIngredientTotal)) : Prop :=
  ∀ p ∈ acc, 0 < p.2.baseAmount ∧ chems.find? (fun c => c.id == p.1) = some p.2.chemical

theorem accWF_nil (chems : List AromaChemical) : AccWF chems [] := by
  intro p hp; simp at hp

theorem addToAccumulator_wf (chems : List AromaChemical) (cid : Nat)
    (chem : AromaChemical) (amount : ℚ) (hamt : 0 < amount)
    (hchem : chems.find? (fun c => c.id == cid) = some chem) :
    ∀ acc, AccWF chems acc → AccWF chems (addToAccumulator acc cid chem amount) := by
  intro acc
  induction acc with
  | nil =>
    intro _ p hp
    simp only [addToAccumulator, List.mem_singleton] at hp
    subst hp
    exact ⟨hamt, hchem⟩
  | cons q qs ih =>
    intro hacc p hp
    by_cases hq : q.1 = cid
    · simp only [addToAccumulator, hq, if_true, List.mem_cons] at hp
      rcases hp with hp | hp
      · subst hp
        obtain ⟨h1, h2⟩ := hacc q (List.mem_cons_self q qs)
        refine ⟨by positivity, ?_⟩
        simpa [hq] using h2
      · exact hacc p (List.mem_cons_of_mem _ hp)
    · simp only [addToAccumulator, hq, if_false, List.mem_cons] at hp
      rcases hp with hp | hp
      · subst hp
        exact hacc p (List.mem_cons_self p qs)
      · exact ih (fun r hr => hacc r (List.mem_cons_of_mem _ hr)) p hp

theorem accAmount_add_same (cid : Nat) (chem : AromaChemical) (amount : ℚ) :
    ∀ acc, accAmount (addToAccumulator acc cid chem amount) cid = accAmount acc cid + amount := by
  intro acc
  induction acc with
  | nil => simp [addToAccumulator, accAmount]
  | cons q qs ih =>
    by_cases hq : q.1 = cid
    · simp [addToAccumulator, accAmount, List.find?_cons, hq]
    · have hqf : (q.1 == cid) = false := by simp [hq]
      simp only [addToAccumulator, hq, if_false, accAmount, List.find?_cons, hqf,
        Bool.false_eq_true] at ih ⊢
      exact ih

theorem accAmount_add_other (cid cid' : Nat) (chem : AromaChemical) (amount : ℚ)
    (hne : cid' ≠ cid) :
    ∀ acc, accAmount (addToAccumulator acc cid chem amount) cid' = accAmount acc cid' := by
  have hne' : ¬ cid = cid' := fun h => hne h.symm
  intro acc
  induction acc with
  | nil => simp [addToAccumulator, accAmount, hne']
  | cons q qs ih =>
    by_cases hq : q.1 = cid
    · have hq' : (q.1 == cid') = false := by simp [hq, hne']
      simp [addToAccumulator, accAmount, List.find?_cons, hq, hq', hne']
    · by_cases hq2 : q.1 = cid'
      · simp [addToAccumulator, accAmount, List.find?_cons, hq, hq2, hne]
      · have hq2f : (q.1 == cid') = false := by simp [hq2]
        simp only [addToAccumulator, hq, if_false, accAmount, List.find?_cons, hq2f,
          Bool.false_eq_true] at ih ⊢
        exact ih

/-! ## Master invariants of the accumulator traversal -/

/-- On success the traversal preserves the memo and accumulator
invariants. -/
theorem accRows_ok_wf (src : List FormulaIngredient) (chems : List AromaChemical)
    (fuel : Nat) (todo : List FormulaIngredient) (factor : ℚ) (path : List Nat)
    (st : AccSt) :
    ∀ st', accRows src chems fuel todo factor path st = .ok st' →
      MemoWF src st.memo → AccWF chems st.acc →
      MemoWF src st'.memo ∧ AccWF chems st'.acc := by
  induction fuel, todo, factor, path, st using accRows.induct src chems with
  | case1 => intro st' h; simp [accRows] at h
  | case2 =>
    intro st' h hm ha
    simp only [accRows, Except.ok.injEq] at h
    subst h
    exact ⟨hm, ha⟩
  | case3 fuel ing rest factor path st amount hle ih =>
    intro st' h hm ha
    rw [accRows] at h
    rw [if_pos (show normalizeAmount ing.amount ing.unit * factor ≤ 0 from hle)] at h
    exact ih st' h hm ha
  | case4 fuel ing rest factor path st amount hle cid hcid hfind =>
    intro st' h hm ha
    rw [accRows] at h
    rw [if_neg (show ¬ normalizeAmount ing.amount ing.unit * factor ≤ 0 from hle)] at h
    simp only [hcid, hfind] at h
    exact absurd h (by simp)
  | case5 fuel ing rest factor path st amount hle cid hcid chem hfind ih =>
    intro st' h hm ha
    rw [accRows] at h
    rw [if_neg (show ¬ normalizeAmount ing.amount ing.unit * factor ≤ 0 from hle)] at h
    simp only [hcid, hfind] at h
    refine ih st' h hm ?_
    exact addToAccumulator_wf chems cid chem _ (lt_of_not_le hle) hfind st.acc ha
  | case6 fuel ing rest factor path st amount hle hcid subID hsub hnz e hcomp =>
    intro st' h hm ha
    rw [accRows] at h
    rw [if_neg (show ¬ normalizeAmount ing.amount ing.unit * factor ≤ 0 from hle)] at h
    simp only [hcid, hsub, if_pos hnz, hcomp] at h
    exact absurd h (by simp)
  | case7 fuel ing rest factor path st amount hle hcid subID hsub hnz subTotal memo' hcomp stm hst ih =>
    intro st' h hm ha
    rw [accRows] at h
    rw [if_neg (show ¬ normalizeAmount ing.amount ing.unit * factor ≤ 0 from hle)] at h
    simp only [hcid, hsub, if_pos hnz, hcomp, if_pos hst] at h
    obtain ⟨_, _, hm', _⟩ := computeFormulaTotal_ok src subID st.memo [] subTotal memo' hm hcomp
    exact ih st' h hm' ha
  | case8 fuel ing rest factor path st amount hle hcid subID hsub hnz subTotal memo' hcomp hst hmem =>
    intro st' h hm ha
    rw [accRows] at h
    rw [if_neg (show ¬ normalizeAmount ing.amount ing.unit * factor ≤ 0 from hle)] at h
    simp only [hcid, hsub, if_pos hnz, hcomp, if_neg hst, if_pos hmem] at h
    exact absurd h (by simp)
  | case9 fuel ing rest factor path st amount hle hcid subID hsub hnz subTotal memo' hcomp hst hmem srows hempty =>
    intro st' h hm ha
    rw [accRows] at h
    rw [if_neg (show ¬ normalizeAmount ing.amount ing.unit * factor ≤ 0 from hle)] at h
    simp only [hcid, hsub, if_pos hnz, hcomp, if_neg hst, if_neg hmem,
      if_pos (show (rowsOf src subID).isEmpty = true from hempty)] at h
    exact absurd h (by simp)
  | case10 fuel ing rest factor path st amount hle hcid subID hsub hnz subTotal memo' hcomp stm hst hmem srows hempty e hrec ihsub =>
    intro st' h hm ha
    rw [accRows] at h
    rw [if_neg (show ¬ normalizeAmount ing.amount ing.unit * factor ≤ 0 from hle)] at h
    simp only [hcid, hsub, if_pos hnz, hcomp, if_neg hst, if_neg hmem,
      if_neg (show ¬ (rowsOf src subID).isEmpty = true from hempty), hrec] at h
    exact absurd h (by simp)
  | case11 fuel ing rest factor path st amount hle hcid subID hsub hnz subTotal memo' hcomp stm hst hmem srows hempty stmid hrec ihsub ihrest =>
    intro st' h hm ha
    rw [accRows] at h
    rw [if_neg (show ¬ normalizeAmount ing.amount ing.unit * factor ≤ 0 from hle)] at h
    simp only [hcid, hsub, if_pos hnz, hcomp, if_neg hst, if_neg hmem,
      if_neg (show ¬ (rowsOf src subID).isEmpty = true from hempty), hrec] at h
    obtain ⟨_, _, hm', _⟩ := computeFormulaTotal_ok src subID st.memo [] subTotal memo' hm hcomp
    obtain ⟨hm'', ha''⟩ := ihsub stmid hrec hm' ha
    exact ihrest st' h hm'' ha''
  | case12 fuel ing rest factor path st amount hle hcid subID hsub hnz ih =>
    intro st' h hm ha
    rw [accRows] at h
    rw [if_neg (show ¬ normalizeAmount ing.amount ing.unit * factor ≤ 0 from hle)] at h
    simp only [hcid, hsub, if_neg hnz] at h
    exact ih st' h hm ha
  | case13 fuel ing rest factor path st amount hle hcid hsub ih =>
    intro st' h hm ha
    rw [accRows] at h
    rw [if_neg (show ¬ normalizeAmount ing.amount ing.unit * factor ≤ 0 from hle)] at h
    simp only [hcid, hsub] at h
    exact ih st' h hm ha

/-- The traversal never reports `FormulaNotFound`: a missing target formula
is detected before it, and a dangling sub-formula reference surfaces as
`EmptyComposition` from the total calculator instead. -/
theorem accRows_error_ne_formulaNotFound (src : List FormulaIngredient)
    (chems : List AromaChemical) (fuel : Nat) (todo : List FormulaIngredient)
    (factor : ℚ) (path : List Nat) (st : AccSt) :
    ∀ e, accRows src chems fuel todo factor path st = .error e →
      e ≠ .formulaNotFound := by
  induction fuel, todo, factor, path, st using accRows.induct src chems with
  | case1 =>
    intro e h
    simp only [accRows, Except.error.injEq] at h
    subst h
    simp
  | case2 =>
    intro e h
    simp [accRows] at h
  | case3 fuel ing rest factor path st amount hle ih =>
    intro e h
    rw [accRows] at h
    rw [if_pos (show normalizeAmount ing.amount ing.unit * factor ≤ 0 from hle)] at h
    exact ih e h
  | case4 fuel ing rest factor path st amount hle cid hcid hfind =>
    intro e h
    rw [accRows] at h
    rw [if_neg (show ¬ normalizeAmount ing.amount ing.unit * factor ≤ 0 from hle)] at h
    simp only [hcid, hfind, Except.error.injEq] at h
    subst h
    simp
  | case5 fuel ing rest factor path st amount hle cid hcid chem hfind ih =>
    intro e h
    rw [accRows] at h
    rw [if_neg (show ¬ normalizeAmount ing.amount ing.unit * factor ≤ 0 from hle)] at h
    simp only [hcid, hfind] at h
    exact ih e h
  | case6 fuel ing rest factor path st amount hle hcid subID hsub hnz e0 hcomp =>
    intro e h
    rw [accRows] at h
    rw [if_neg (show ¬ normalizeAmount ing.amount ing.unit * factor ≤ 0 from hle)] at h
    simp only [hcid, hsub, if_pos hnz, hcomp, Except.error.injEq] at h
    subst h
    rcases computeFormulaTotal_error_cases src subID st.memo [] e0 hcomp with he | he <;>
      simp [he]
  | case7 fuel ing rest factor path st amount hle hcid subID hsub hnz subTotal memo' hcomp stm hst ih =>
    intro e h
    rw [accRows] at h
    rw [if_neg (show ¬ normalizeAmount ing.amount ing.unit * factor ≤ 0 from hle)] at h
    simp only [hcid, hsub, if_pos hnz, hcomp, if_pos hst] at h
    exact ih e h
  | case8 fuel ing rest factor path st amount hle hcid subID hsub hnz subTotal memo' hcomp hst hmem =>
    intro e h
    rw [accRows] at h
    rw [if_neg (show ¬ normalizeAmount ing.amount ing.unit * factor ≤ 0 from hle)] at h
    simp only [hcid, hsub, if_pos hnz, hcomp, if_neg hst, if_pos hmem,
      Except.error.injEq] at h
    subst h
    simp
  | case9 fuel ing rest factor path st amount hle hcid subID hsub hnz subTotal memo' hcomp hst hmem srows hempty =>
    intro e h
    rw [accRows] at h
    rw [if_neg (show ¬ normalizeAmount ing.amount ing.unit * factor ≤ 0 from hle)] at h
    simp only [hcid, hsub, if_pos hnz, hcomp, if_neg hst, if_neg hmem,
      if_pos (show (rowsOf src subID).isEmpty = true from hempty), Except.error.injEq] at h
    subst h
    simp
  | case10 fuel ing rest factor path st amount hle hcid subID hsub hnz subTotal memo' hcomp stm hst hmem srows hempty e0 hrec ihsub =>
    intro e h
    rw [accRows] at h
    rw [if_neg (show ¬ normalizeAmount ing.amount ing.unit * factor ≤ 0 from hle)] at h
    simp only [hcid, hsub, if_pos hnz, hcomp, if_neg hst, if_neg hmem,
      if_neg (show ¬ (rowsOf src subID).isEmpty = true from hempty), hrec,
      Except.error.injEq] at h
    subst h
    exact ihsub e0 hrec
  | case11 fuel ing rest factor path st amount hle hcid subID hsub hnz subTotal memo' hcomp stm hst hmem srows hempty stmid hrec ihsub ihrest =>
    intro e h
    rw [accRows] at h
    rw [if_neg (show ¬ normalizeAmount ing.amount ing.unit * factor ≤ 0 from hle)] at h
    simp only [hcid, hsub, if_pos hnz, hcomp, if_neg hst, if_neg hmem,
      if_neg (show ¬ (rowsOf src subID).isEmpty = true from hempty), hrec] at h
    exact ihrest e h
  | case12 fuel ing rest factor path st amount hle hcid subID hsub hnz ih =>
    intro e h
    rw [accRows] at h
    rw [if_neg (show ¬ normalizeAmount ing.amount ing.unit * factor ≤ 0 from hle)] at h
    simp only [hcid, hsub, if_neg hnz] at h
    exact ih e h
  | case13 fuel ing rest factor path st amount hle hcid hsub ih =>
    intro e h
    rw [accRows] at h
    rw [if_neg (show ¬ normalizeAmount ing.amount ing.unit * factor ≤ 0 from hle)] at h
    simp only [hcid, hsub] at h
    exact ih e h

/-- State-threading refinement: on success, the amount the traversal has
accumulated for each chemical grows by exactly the independently-summed
per-path contribution `contribRows` of the processed rows. -/
theorem accRows_contrib (src : List FormulaIngredient) (chems : List AromaChemical)
    (fuel : Nat) (todo : List FormulaIngredient) (factor : ℚ) (path : List Nat)
    (st : AccSt) :
    ∀ st', accRows src chems fuel todo factor path st = .ok st' →
      MemoWF src st.memo → AccWF chems st.acc →
      ∀ cid, accAmount st'.acc cid =
        accAmount st.acc cid + contribRows src fuel todo factor path cid := by
  induction fuel, todo, factor, path, st using accRows.induct src chems with
  | case1 =>
    intro st' h
    simp [accRows] at h
  | case2 =>
    intro st' h hm ha cid
    simp only [accRows, Except.ok.injEq] at h
    subst h
    simp [contribRows]
  | case3 fuel ing rest factor path st amount hle ih =>
    intro st' h hm ha cid
    rw [accRows] at h
    rw [if_pos (show normalizeAmount ing.amount ing.unit * factor ≤ 0 from hle)] at h
    simp only [contribRows]
    rw [if_pos (show normalizeAmount ing.amount ing.unit * factor ≤ 0 from hle)]
    exact ih st' h hm ha cid
  | case4 fuel ing rest factor path st amount hle cid0 hcid hfind =>
    intro st' h hm ha cid
    rw [accRows] at h
    rw [if_neg (show ¬ normalizeAmount ing.amount ing.unit * factor ≤ 0 from hle)] at h
    simp only [hcid, hfind] at h
    exact absurd h (by simp)
  | case5 fuel ing rest factor path st amount hle cid0 hcid chem hfind ih =>
    intro st' h hm ha cid
    rw [accRows] at h
    rw [if_neg (show ¬ normalizeAmount ing.amount ing.unit * factor ≤ 0 from hle)] at h
    simp only [hcid, hfind] at h
    have ha' : AccWF chems (addToAccumulator st.acc cid0 chem
        (normalizeAmount ing.amount ing.unit * factor)) :=
      addToAccumulator_wf chems cid0 chem _ (lt_of_not_le hle) hfind st.acc ha
    have hrec := ih st' h hm ha' cid
    simp only [contribRows]
    rw [if_neg (show ¬ normalizeAmount ing.amount ing.unit * factor ≤ 0 from hle)]
    simp only [hcid]
    by_cases hc : cid0 = cid
    · rw [if_pos hc]
      subst hc
      rw [hrec, accAmount_add_same]
      ring
    · rw [if_neg hc]
      rw [hrec, accAmount_add_other cid0 cid chem _ (fun a => hc a.symm)]
      ring
  | case6 fuel ing rest factor path st amount hle hcid subID hsub hnz e0 hcomp =>
    intro st' h hm ha cid
    rw [accRows] at h
    rw [if_neg (show ¬ normalizeAmount ing.amount ing.unit * factor ≤ 0 from hle)] at h
    simp only [hcid, hsub, if_pos hnz, hcomp] at h
    exact absurd h (by simp)
  | case7 fuel ing rest factor path st amount hle hcid subID hsub hnz subTotal memo' hcomp stm hst ih =>
    intro st' h hm ha cid
    rw [accRows] at h
    rw [if_neg (show ¬ normalizeAmount ing.amount ing.unit * factor ≤ 0 from hle)] at h
    simp only [hcid, hsub, if_pos hnz, hcomp, if_pos hst] at h
    obtain ⟨hval, _, hm', _⟩ := computeFormulaTotal_ok src subID st.memo [] subTotal memo' hm hcomp
    have hrec := ih st' h hm' ha cid
    simp only [contribRows]
    rw [if_neg (show ¬ normalizeAmount ing.amount ing.unit * factor ≤ 0 from hle)]
    simp only [hcid, hsub, if_pos hnz]
    rw [if_pos (by rw [← hval]; exact hst)]
    exact hrec
  | case8 fuel ing rest factor path st amount hle hcid subID hsub hnz subTotal memo' hcomp hst hmem =>
    intro st' h hm ha cid
    rw [accRows] at h
    rw [if_neg (show ¬ normalizeAmount ing.amount ing.unit * factor ≤ 0 from hle)] at h
    simp only [hcid, hsub, if_pos hnz, hcomp, if_neg hst, if_pos hmem] at h
    exact absurd h (by simp)
  | case9 fuel ing rest factor path st amount hle hcid subID hsub hnz subTotal memo' hcomp hst hmem srows hempty =>
    intro st' h hm ha cid
    rw [accRows] at h
    rw [if_neg (show ¬ normalizeAmount ing.amount ing.unit * factor ≤ 0 from hle)] at h
    simp only [hcid, hsub, if_pos hnz, hcomp, if_neg hst, if_neg hmem,
      if_pos (show (rowsOf src subID).isEmpty = true from hempty)] at h
    exact absurd h (by simp)
  | case10 fuel ing rest factor path st amount hle hcid subID hsub hnz subTotal memo' hcomp stm hst hmem srows hempty e0 hrec ihsub =>
    intro st' h hm ha cid
    rw [accRows] at h
    rw [if_neg (show ¬ normalizeAmount ing.amount ing.unit * factor ≤ 0 from hle)] at h
    simp only [hcid, hsub, if_pos hnz, hcomp, if_neg hst, if_neg hmem,
      if_neg (show ¬ (rowsOf src subID).isEmpty = true from hempty), hrec] at h
    exact absurd h (by simp)
  | case11 fuel ing rest factor path st amount hle hcid subID hsub hnz subTotal memo' hcomp stm hst hmem srows hempty stmid hrec ihsub ihrest =>
    intro st' h hm ha cid
    rw [accRows] at h
    rw [if_neg (show ¬ normalizeAmount ing.amount ing.unit * factor ≤ 0 from hle)] at h
    simp only [hcid, hsub, if_pos hnz, hcomp, if_neg hst, if_neg hmem,
      if_neg (show ¬ (rowsOf src subID).isEmpty = true from hempty), hrec] at h
    obtain ⟨hval, _, hm', _⟩ := computeFormulaTotal_ok src subID st.memo [] subTotal memo' hm hcomp
    obtain ⟨hm'', ha''⟩ := accRows_ok_wf src chems fuel (rowsOf src subID) _ (subID :: path)
      { acc := st.acc, memo := memo' } stmid hrec hm' ha
    have hsubrec := ihsub stmid hrec hm' ha cid
    have hrestrec := ihrest st' h hm'' ha'' cid
    simp only [contribRows]
    rw [if_neg (show ¬ normalizeAmount ing.amount ing.unit * factor ≤ 0 from hle)]
    simp only [hcid, hsub, if_pos hnz]
    rw [if_neg (by rw [← hval]; exact hst), if_neg hmem,
      if_neg (show ¬ (rowsOf src subID).isEmpty = true from hempty)]
    rw [hrestrec, hsubrec]
    rw [← hval]
    ring
  | case12 fuel ing rest factor path st amount hle hcid subID hsub hnz ih =>
    intro st' h hm ha cid
    rw [accRows] at h
    rw [if_neg (show ¬ normalizeAmount ing.amount ing.unit * factor ≤ 0 from hle)] at h
    simp only [hcid, hsub, if_neg hnz] at h
    simp only [contribRows]
    rw [if_neg (show ¬ normalizeAmount ing.amount ing.unit * factor ≤ 0 from hle)]
    simp only [hcid, hsub, if_neg hnz]
    exact ih st' h hm ha cid
  | case13 fuel ing rest factor path st amount hle hcid hsub ih =>
    intro st' h hm ha cid
    rw [accRows] at h
    rw [if_neg (show ¬ normalizeAmount ing.amount ing.unit * factor ≤ 0 from hle)] at h
    simp only [hcid, hsub] at h
    simp only [contribRows]
    rw [if_neg (show ¬ normalizeAmount ing.amount ing.unit * factor ≤ 0 from hle)]
    simp only [hcid, hsub]
    exact ih st' h hm ha cid

/-! ## Cycle-guard correctness -/

/-- Walking a chain of caller edges from any stack entry reaches the top of
the stack. -/
theorem chain_mem_reflTransGen (r : Nat → Nat → Prop) :
    ∀ (rest : List Nat) (c : Nat),
      List.Chain' (fun a b => r b a) (c :: rest) →
      ∀ x ∈ c :: rest, Relation.ReflTransGen r x c := by
  intro rest
  induction rest with
  | nil =>
    intro c _ x hx
    simp only [List.mem_singleton] at hx
    subst hx
    exact Relation.ReflTransGen.refl
  | cons c2 rest2 ih =>
    intro c hchain x hx
    rcases List.mem_cons.mp hx with hx | hx
    · subst hx
      exact Relation.ReflTransGen.refl
    · obtain ⟨hedge, htail⟩ := List.chain'_cons.mp hchain
      exact Relation.ReflTransGen.tail (ih c2 htail x hx) hedge

/-- Invariant carried by the traversal's path argument: the path is the
stack of formulas being expanded, linked by reference edges, all reachable
from the root, and the pending rows belong to the formula on top. -/
def PathInv (src : List FormulaIngredient) (root : Nat) (path : List Nat)
    (todo : List FormulaIngredient) : Prop :=
  path ≠ [] ∧ List.Chain' (fun a b => refEdge src b a) path ∧
    (∀ x ∈ path, Relation.ReflTransGen (refEdge src) root x) ∧
    ∀ r ∈ todo, r ∈ src ∧ r.formulaId = path.headI

/-- If the reference graph reachable from the root is acyclic, the traversal
never reports a circular reference. -/
theorem accRows_acyclic_ne_circular (src : List FormulaIngredient)
    (chems : List AromaChemical) (root : Nat) (hacyc : AcyclicFrom src root)
    (fuel : Nat) (todo : List FormulaIngredient) (factor : ℚ) (path : List Nat)
    (st : AccSt) :
    ∀ e, accRows src chems fuel todo factor path st = .error e →
      PathInv src root path todo → e ≠ .circularReference := by
  induction fuel, todo, factor, path, st using accRows.induct src chems with
  | case1 =>
    intro e h _
    simp only [accRows, Except.error.injEq] at h
    subst h
    simp
  | case2 =>
    intro e h
    simp [accRows] at h
  | case3 fuel ing rest factor path st amount hle ih =>
    intro e h hinv
    rw [accRows] at h
    rw [if_pos (show normalizeAmount ing.amount ing.unit * factor ≤ 0 from hle)] at h
    refine ih e h ⟨hinv.1, hinv.2.1, hinv.2.2.1, ?_⟩
    intro r hr
    exact hinv.2.2.2 r (List.mem_cons_of_mem _ hr)
  | case4 fuel ing rest factor path st amount hle cid hcid hfind =>
    intro e h _
    rw [accRows] at h
    rw [if_neg (show ¬ normalizeAmount ing.amount ing.unit * factor ≤ 0 from hle)] at h
    simp only [hcid, hfind, Except.error.injEq] at h
    subst h
    simp
  | case5 fuel ing rest factor path st amount hle cid hcid chem hfind ih =>
    intro e h hinv
    rw [accRows] at h
    rw [if_neg (show ¬ normalizeAmount ing.amount ing.unit * factor ≤ 0 from hle)] at h
    simp only [hcid, hfind] at h
    refine ih e h ⟨hinv.1, hinv.2.1, hinv.2.2.1, ?_⟩
    intro r hr
    exact hinv.2.2.2 r (List.mem_cons_of_mem _ hr)
  | case6 fuel ing rest factor path st amount hle hcid subID hsub hnz e0 hcomp =>
    intro e h _
    rw [accRows] at h
    rw [if_neg (show ¬ normalizeAmount ing.amount ing.unit * factor ≤ 0 from hle)] at h
    simp only [hcid, hsub, if_pos hnz, hcomp, Except.error.injEq] at h
    subst h
    intro hcirc
    subst hcirc
    exact computeFormulaTotal_stack_nil_ne_circular src subID st.memo hcomp
  | case7 fuel ing rest factor path st amount hle hcid subID hsub hnz subTotal memo' hcomp stm hst ih =>
    intro e h hinv
    rw [accRows] at h
    rw [if_neg (show ¬ normalizeAmount ing.amount ing.unit * factor ≤ 0 from hle)] at h
    simp only [hcid, hsub, if_pos hnz, hcomp, if_pos hst] at h
    refine ih e h ⟨hinv.1, hinv.2.1, hinv.2.2.1, ?_⟩
    intro r hr
    exact hinv.2.2.2 r (List.mem_cons_of_mem _ hr)
  | case8 fuel ing rest factor path st amount hle hcid subID hsub hnz subTotal memo' hcomp hst hmem =>
    intro e h hinv
    exfalso
    obtain ⟨hne, hchain, hreach, hrows⟩ := hinv
    obtain ⟨cur, prest, hpath⟩ := List.exists_cons_of_ne_nil hne
    subst hpath
    obtain ⟨hmemsrc, hfid⟩ := hrows ing (List.mem_cons_self ing rest)
    have hedge : refEdge src cur subID := by
      refine ⟨ing, hmemsrc, ?_, hsub⟩
      simpa using hfid
    have hrtg : Relation.ReflTransGen (refEdge src) subID cur :=
      chain_mem_reflTransGen (refEdge src) prest cur hchain subID hmem
    have hcycle : Relation.TransGen (refEdge src) subID subID :=
      Relation.TransGen.tail' hrtg hedge
    exact hacyc subID (hreach subID hmem) hcycle
  | case9 fuel ing rest factor path st amount hle hcid subID hsub hnz subTotal memo' hcomp hst hmem srows hempty =>
    intro e h _
    rw [accRows] at h
    rw [if_neg (show ¬ normalizeAmount ing.amount ing.unit * factor ≤ 0 from hle)] at h
    simp only [hcid, hsub, if_pos hnz, hcomp, if_neg hst, if_neg hmem,
      if_pos (show (rowsOf src subID).isEmpty = true from hempty), Except.error.injEq] at h
    subst h
    simp
  | case10 fuel ing rest factor path st amount hle hcid subID hsub hnz subTotal memo' hcomp stm hst hmem srows hempty e0 hrec ihsub =>
    intro e h hinv
    rw [accRows] at h
    rw [if_neg (show ¬ normalizeAmount ing.amount ing.unit * factor ≤ 0 from hle)] at h
    simp only [hcid, hsub, if_pos hnz, hcomp, if_neg hst, if_neg hmem,
      if_neg (show ¬ (rowsOf src subID).isEmpty = true from hempty), hrec,
      Except.error.injEq] at h
    subst h
    obtain ⟨hne, hchain, hreach, hrows⟩ := hinv
    obtain ⟨cur, prest, hpath⟩ := List.exists_cons_of_ne_nil hne
    subst hpath
    obtain ⟨hmemsrc, hfid⟩ := hrows ing (List.mem_cons_self ing rest)
    have hedge : refEdge src cur subID := by
      refine ⟨ing, hmemsrc, ?_, hsub⟩
      simpa using hfid
    refine ihsub e0 hrec ⟨by simp, ?_, ?_, ?_⟩
    · exact List.chain'_cons.mpr ⟨hedge, hchain⟩
    · intro x hx
      rcases List.mem_cons.mp hx with hx | hx
      · subst hx
        exact Relation.ReflTransGen.tail (hreach cur (List.mem_cons_self cur prest)) hedge
      · exact hreach x hx
    · intro r hr
      have hr' : r ∈ List.filter (fun q => q.formulaId == subID) src := hr
      constructor
      · exact List.mem_of_mem_filter hr'
      · have := List.of_mem_filter hr'
        simpa using this
  | case11 fuel ing rest factor path st amount hle hcid subID hsub hnz subTotal memo' hcomp stm hst hmem srows hempty stmid hrec ihsub ihrest =>
    intro e h hinv
    rw [accRows] at h
    rw [if_neg (show ¬ normalizeAmount ing.amount ing.unit * factor ≤ 0 from hle)] at h
    simp only [hcid, hsub, if_pos hnz, hcomp, if_neg hst, if_neg hmem,
      if_neg (show ¬ (rowsOf src subID).isEmpty = true from hempty), hrec] at h
    refine ihrest e h ⟨hinv.1, hinv.2.1, hinv.2.2.1, ?_⟩
    intro r hr
    exact hinv.2.2.2 r (List.mem_cons_of_mem _ hr)
  | case12 fuel ing rest factor path st amount hle hcid subID hsub hnz ih =>
    intro e h hinv
    rw [accRows] at h
    rw [if_neg (show ¬ normalizeAmount ing.amount ing.unit * factor ≤ 0 from hle)] at h
    simp only [hcid, hsub, if_neg hnz] at h
    refine ih e h ⟨hinv.1, hinv.2.1, hinv.2.2.1, ?_⟩
    intro r hr
    exact hinv.2.2.2 r (List.mem_cons_of_mem _ hr)
  | case13 fuel ing rest factor path st amount hle hcid hsub ih =>
    intro e h hinv
    rw [accRows] at h
    rw [if_neg (show ¬ normalizeAmount ing.amount ing.unit * factor ≤ 0 from hle)] at h
    simp only [hcid, hsub] at h
    refine ih e h ⟨hinv.1, hinv.2.1, hinv.2.2.1, ?_⟩
    intro r hr
    exact hinv.2.2.2 r (List.mem_cons_of_mem _ hr)

/-! ## Empty compositions are never skipped on live branches -/

/-- One of the pending rows is a live sub-formula reference to `b`. -/
def rowLeadsTo (src : List FormulaIngredient) (todo : List FormulaIngredient)
    (b : Nat) : Prop :=
  ∃ r ∈ todo, r.aromaChemicalID = none ∧ r.subFormulaID = some b ∧ b ≠ 0 ∧
    0 < normalizeAmount r.amount r.unit ∧ 0 < formulaTotalValue src b

theorem liveEdge_iff_rowLeadsTo (src : List FormulaIngredient) (a b : Nat) :
    liveEdge src a b ↔ rowLeadsTo src (rowsOf src a) b := by
  constructor
  · rintro ⟨r, hr, hfid, hprops⟩
    refine ⟨r, ?_, hprops⟩
    unfold rowsOf
    rw [List.mem_filter]
    exact ⟨hr, by simp [hfid]⟩
  · rintro ⟨r, hr, hprops⟩
    unfold rowsOf at hr
    rw [List.mem_filter] at hr
    exact ⟨r, hr.1, by simpa using hr.2, hprops⟩

/-- If the traversal of the pending rows succeeds with a positive inherited
factor, then every formula reachable along live reference edges from a live
sub-reference among those rows has a non-empty composition. -/
theorem accRows_ok_live (src : List FormulaIngredient) (chems : List AromaChemical)
    (fuel : Nat) (todo : List FormulaIngredient) (factor : ℚ) (path : List Nat)
    (st : AccSt) :
    ∀ st', accRows src chems fuel todo factor path st = .ok st' →
      MemoWF src st.memo → AccWF chems st.acc → 0 < factor →
      ∀ b, rowLeadsTo src todo b →
        ∀ c, Relation.ReflTransGen (liveEdge src) b c → rowsOf src c ≠ [] := by
  induction fuel, todo, factor, path, st using accRows.induct src chems with
  | case1 =>
    intro st' h
    simp [accRows] at h
  | case2 =>
    intro st' h hm ha hf b hlead
    obtain ⟨r, hr, _⟩ := hlead
    simp at hr
  | case3 fuel ing rest factor path st amount hle ih =>
    intro st' h hm ha hf b hlead c hrtg
    rw [accRows] at h
    rw [if_pos (show normalizeAmount ing.amount ing.unit * factor ≤ 0 from hle)] at h
    obtain ⟨r, hr, hprops⟩ := hlead
    rcases List.mem_cons.mp hr with hr | hr
    · exfalso
      obtain ⟨_, _, _, hpos, _⟩ := hprops
      rw [hr] at hpos
      have hgt : 0 < normalizeAmount ing.amount ing.unit * factor := mul_pos hpos hf
      exact absurd hgt (not_lt.mpr hle)
    · exact ih st' h hm ha hf b ⟨r, hr, hprops⟩ c hrtg
  | case4 fuel ing rest factor path st amount hle cid hcid hfind =>
    intro st' h
    rw [accRows] at h
    rw [if_neg (show ¬ normalizeAmount ing.amount ing.unit * factor ≤ 0 from hle)] at h
    simp only [hcid, hfind] at h
    exact absurd h (by simp)
  | case5 fuel ing rest factor path st amount hle cid hcid chem hfind ih =>
    intro st' h hm ha hf b hlead c hrtg
    rw [accRows] at h
    rw [if_neg (show ¬ normalizeAmount ing.amount ing.unit * factor ≤ 0 from hle)] at h
    simp only [hcid, hfind] at h
    have ha' : AccWF chems (addToAccumulator st.acc cid chem
        (normalizeAmount ing.amount ing.unit * factor)) :=
      addToAccumulator_wf chems cid chem _ (lt_of_not_le hle) hfind st.acc ha
    obtain ⟨r, hr, hprops⟩ := hlead
    rcases List.mem_cons.mp hr with hr | hr
    · obtain ⟨hnone, _⟩ := hprops
      rw [hr, hcid] at hnone
      simp at hnone
    · exact ih st' h hm ha' hf b ⟨r, hr, hprops⟩ c hrtg
  | case6 fuel ing rest factor path st amount hle hcid subID hsub hnz e0 hcomp =>
    intro st' h
    rw [accRows] at h
    rw [if_neg (show ¬ normalizeAmount ing.amount ing.unit * factor ≤ 0 from hle)] at h
    simp only [hcid, hsub, if_pos hnz, hcomp] at h
    exact absurd h (by simp)
  | case7 fuel ing rest factor path st amount hle hcid subID hsub hnz subTotal memo' hcomp stm hst ih =>
    intro st' h hm ha hf b hlead c hrtg
    rw [accRows] at h
    rw [if_neg (show ¬ normalizeAmount ing.amount ing.unit * factor ≤ 0 from hle)] at h
    simp only [hcid, hsub, if_pos hnz, hcomp, if_pos hst] at h
    obtain ⟨hval, _, hm', _⟩ := computeFormulaTotal_ok src subID st.memo [] subTotal memo' hm hcomp
    obtain ⟨r, hr, hprops⟩ := hlead
    rcases List.mem_cons.mp hr with hr | hr
    · exfalso
      obtain ⟨_, hsubr, _, _, hftv⟩ := hprops
      rw [hr, hsub] at hsubr
      injection hsubr with he
      subst he
      rw [← hval] at hftv
      exact absurd hst (not_le.mpr hftv)
    · exact ih st' h hm' ha hf b ⟨r, hr, hprops⟩ c hrtg
  | case8 fuel ing rest factor path st amount hle hcid subID hsub hnz subTotal memo' hcomp hst hmem =>
    intro st' h
    rw [accRows] at h
    rw [if_neg (show ¬ normalizeAmount ing.amount ing.unit * factor ≤ 0 from hle)] at h
    simp only [hcid, hsub, if_pos hnz, hcomp, if_neg hst, if_pos hmem] at h
    exact absurd h (by simp)
  | case9 fuel ing rest factor path st amount hle hcid subID hsub hnz subTotal memo' hcomp hst hmem srows hempty =>
    intro st' h
    rw [accRows] at h
    rw [if_neg (show ¬ normalizeAmount ing.amount ing.unit * factor ≤ 0 from hle)] at h
    simp only [hcid, hsub, if_pos hnz, hcomp, if_neg hst, if_neg hmem,
      if_pos (show (rowsOf src subID).isEmpty = true from hempty)] at h
    exact absurd h (by simp)
  | case10 fuel ing rest factor path st amount hle hcid subID hsub hnz subTotal memo' hcomp stm hst hmem srows hempty e0 hrec ihsub =>
    intro st' h
    rw [accRows] at h
    rw [if_neg (show ¬ normalizeAmount ing.amount ing.unit * factor ≤ 0 from hle)] at h
    simp only [hcid, hsub, if_pos hnz, hcomp, if_neg hst, if_neg hmem,
      if_neg (show ¬ (rowsOf src subID).isEmpty = true from hempty), hrec] at h
    exact absurd h (by simp)
  | case11 fuel ing rest factor path st amount hle hcid subID hsub hnz subTotal memo' hcomp stm hst hmem srows hempty stmid hrec ihsub ihrest =>
    intro st' h hm ha hf b hlead c hrtg
    rw [accRows] at h
    rw [if_neg (show ¬ normalizeAmount ing.amount ing.unit * factor ≤ 0 from hle)] at h
    simp only [hcid, hsub, if_pos hnz, hcomp, if_neg hst, if_neg hmem,
      if_neg (show ¬ (rowsOf src subID).isEmpty = true from hempty), hrec] at h
    obtain ⟨hval, hrowsne, hm', _⟩ := computeFormulaTotal_ok src subID st.memo [] subTotal memo' hm hcomp
    obtain ⟨hm'', ha''⟩ := accRows_ok_wf src chems fuel (rowsOf src subID) _ (subID :: path)
      { acc := st.acc, memo := memo' } stmid hrec hm' ha
    have hfpos : 0 < normalizeAmount ing.amount ing.unit * factor / subTotal :=
      div_pos (lt_of_not_le hle) (lt_of_not_le hst)
    obtain ⟨r, hr, hprops⟩ := hlead
    rcases List.mem_cons.mp hr with hr | hr
    · -- the live reference is this very row: b = subID, and we descended
      obtain ⟨_, hsubr, _, _, _⟩ := hprops
      rw [hr, hsub] at hsubr
      injection hsubr with he
      subst he
      -- every liveEdge-reachable c from subID is non-empty
      rcases Relation.ReflTransGen.cases_head hrtg with hc | ⟨m, hedge, hrtg'⟩
      · subst hc
        exact hrowsne
      · have hlead' : rowLeadsTo src (rowsOf src subID) m :=
          (liveEdge_iff_rowLeadsTo src subID m).mp hedge
        exact ihsub stmid hrec hm' ha hfpos m hlead' c hrtg'
    · exact ihrest st' h hm'' ha'' hf b ⟨r, hr, hprops⟩ c hrtg
  | case12 fuel ing rest factor path st amount hle hcid subID hsub hnz ih =>
    intro st' h hm ha hf b hlead c hrtg
    rw [accRows] at h
    rw [if_neg (show ¬ normalizeAmount ing.amount ing.unit * factor ≤ 0 from hle)] at h
    simp only [hcid, hsub, if_neg hnz] at h
    obtain ⟨r, hr, hprops⟩ := hlead
    rcases List.mem_cons.mp hr with hr | hr
    · exfalso
      obtain ⟨_, hsubr, hbnz, _, _⟩ := hprops
      rw [hr, hsub] at hsubr
      injection hsubr with he
      subst he
      exact hbnz (not_not.mp hnz)
    · exact ih st' h hm ha hf b ⟨r, hr, hprops⟩ c hrtg
  | case13 fuel ing rest factor path st amount hle hcid hsub ih =>
    intro st' h hm ha hf b hlead c hrtg
    rw [accRows] at h
    rw [if_neg (show ¬ normalizeAmount ing.amount ing.unit * factor ≤ 0 from hle)] at h
    simp only [hcid, hsub] at h
    obtain ⟨r, hr, hprops⟩ := hlead
    rcases List.mem_cons.mp hr with hr | hr
    · obtain ⟨_, hsubr, _⟩ := hprops
      rw [hr, hsub] at hsubr
      simp at hsubr
    · exact ih st' h hm ha hf b ⟨r, hr, hprops⟩ c hrtg

/-! ## Pipeline-level lemmas -/

/-- Everything that holds of a successful quantity-independent resolution:
the formula was found, the base total is the true positive direct total, the
accumulator is well-formed, every accumulated amount is the per-path
contribution sum, and every live-reachable formula is non-empty. -/
theorem resolveFormula_ok_props (snap : Snapshot) (fid : Nat) (formula : Formula)
    (baseTotal : ℚ) (st : AccSt)
    (h : resolveFormula snap fid = .ok (formula, baseTotal, st)) :
    snap.formulas.find? (fun f => f.id == fid) = some formula ∧
    baseTotal = formulaTotalValue snap.rows fid ∧ 0 < baseTotal ∧
    rowsOf snap.rows fid ≠ [] ∧
    AccWF snap.chems st.acc ∧
    (∀ cid, accAmount st.acc cid = pathContribution snap fid cid) ∧
    (∀ c, Relation.ReflTransGen (liveEdge snap.rows) fid c →
      rowsOf snap.rows c ≠ []) := by
  unfold resolveFormula at h
  cases hfind : snap.formulas.find? (fun f => f.id == fid) with
  | none => rw [hfind] at h; simp at h
  | some formula0 =>
    rw [hfind] at h
    simp only at h
    split at h
    · simp at h
    · rename_i hne
      cases hcomp : computeFormulaTotal snap.rows fid [] [] with
      | error e => rw [hcomp] at h; simp at h
      | ok p =>
        obtain ⟨bt, memo⟩ := p
        rw [hcomp] at h
        simp only at h
        split at h
        · simp at h
        · rename_i hpos
          cases hacc : accumulateFormulaIngredients snap.rows snap.chems
              (defaultFuel snap) fid 1 [] ⟨[], memo⟩ with
          | error e => rw [hacc] at h; simp at h
          | ok st0 =>
            rw [hacc] at h
            simp only [Except.ok.injEq, Prod.mk.injEq] at h
            obtain ⟨hf1, hf2, hf3⟩ := h
            subst hf1
            subst hf2
            subst hf3
            obtain ⟨hval, hrowsne, hm, _⟩ :=
              computeFormulaTotal_ok snap.rows fid [] [] bt memo
                (memoWF_nil snap.rows) hcomp
            unfold accumulateFormulaIngredients at hacc
            rw [if_neg (List.not_mem_nil fid)] at hacc
            rw [if_neg (by simpa using hne)] at hacc
            obtain ⟨hm', ha'⟩ := accRows_ok_wf snap.rows snap.chems (defaultFuel snap)
              (rowsOf snap.rows fid) 1 [fid] ⟨[], memo⟩ st0 hacc hm (accWF_nil snap.chems)
            refine ⟨rfl, hval, lt_of_not_le hpos, hrowsne, ha', ?_, ?_⟩
            · intro cid
              have := accRows_contrib snap.rows snap.chems (defaultFuel snap)
                (rowsOf snap.rows fid) 1 [fid] ⟨[], memo⟩ st0 hacc hm
                (accWF_nil snap.chems) cid
              simpa [accAmount, pathContribution] using this
            · intro c hrtg
              rcases Relation.ReflTransGen.cases_head hrtg with hc | ⟨m, hedge, hrtg'⟩
              · subst hc
                exact hrowsne
              · exact accRows_ok_live snap.rows snap.chems (defaultFuel snap)
                  (rowsOf snap.rows fid) 1 [fid] ⟨[], memo⟩ st0 hacc hm
                  (accWF_nil snap.chems) one_pos m
                  ((liveEdge_iff_rowLeadsTo snap.rows fid m).mp hedge) c hrtg'

/-- `resolveFormula` reports `FormulaNotFound` exactly when the target id is
absent from the formulas table. -/
theorem resolveFormula_formulaNotFound_iff (snap : Snapshot) (fid : Nat) :
    resolveFormula snap fid = .error .formulaNotFound ↔
      snap.formulas.find? (fun f => f.id == fid) = none := by
  constructor
  · intro h
    cases hfind : snap.formulas.find? (fun f => f.id == fid) with
    | none => rfl
    | some formula0 =>
      exfalso
      unfold resolveFormula at h
      rw [hfind] at h
      simp only at h
      split at h
      · simp at h
      · rename_i hne
        cases hcomp : computeFormulaTotal snap.rows fid [] [] with
        | error e =>
          rw [hcomp] at h
          simp only [Except.error.injEq] at h
          rcases computeFormulaTotal_error_cases snap.rows fid [] [] e hcomp with he | he <;>
            simp [he] at h
        | ok p =>
          obtain ⟨bt, memo⟩ := p
          rw [hcomp] at h
          simp only at h
          split at h
          · simp at h
          · cases hacc : accumulateFormulaIngredients snap.rows snap.chems
                (defaultFuel snap) fid 1 [] ⟨[], memo⟩ with
            | error e =>
              rw [hacc] at h
              simp only [Except.error.injEq] at h
              subst h
              unfold accumulateFormulaIngredients at hacc
              rw [if_neg (List.not_mem_nil fid)] at hacc
              rw [if_neg (by simpa using hne)] at hacc
              exact accRows_error_ne_formulaNotFound snap.rows snap.chems
                (defaultFuel snap) _ 1 [fid] ⟨[], memo⟩ .formulaNotFound hacc rfl
            | ok st0 =>
              rw [hacc] at h
              simp at h
  · intro h
    unfold resolveFormula
    rw [h]

/-- With an acyclic reachable reference graph, the resolution never fails
with a circular reference. -/
theorem resolveFormula_acyclic_ne_circular (snap : Snapshot) (fid : Nat)
    (hacyc : AcyclicFrom snap.rows fid) :
    resolveFormula snap fid ≠ .error .circularReference := by
  intro h
  unfold resolveFormula at h
  cases hfind : snap.formulas.find? (fun f => f.id == fid) with
  | none => rw [hfind] at h; simp at h
  | some formula0 =>
    rw [hfind] at h
    simp only at h
    split at h
    · simp at h
    · rename_i hne
      cases hcomp : computeFormulaTotal snap.rows fid [] [] with
      | error e =>
        rw [hcomp] at h
        simp only [Except.error.injEq] at h
        subst h
        exact computeFormulaTotal_stack_nil_ne_circular snap.rows fid [] hcomp
      | ok p =>
        obtain ⟨bt, memo⟩ := p
        rw [hcomp] at h
        simp only at h
        split at h
        · simp at h
        · cases hacc : accumulateFormulaIngredients snap.rows snap.chems
              (defaultFuel snap) fid 1 [] ⟨[], memo⟩ with
          | error e =>
            rw [hacc] at h
            simp only [Except.error.injEq] at h
            subst h
            unfold accumulateFormulaIngredients at hacc
            rw [if_neg (List.not_mem_nil fid)] at hacc
            rw [if_neg (by simpa using hne)] at hacc
            refine accRows_acyclic_ne_circular snap.rows snap.chems fid hacyc
              (defaultFuel snap) _ 1 [fid] ⟨[], memo⟩ .circularReference hacc
              ⟨by simp, List.chain'_singleton fid, ?_, ?_⟩ rfl
            · intro x hx
              simp only [List.mem_singleton] at hx
              subst hx
              exact Relation.ReflTransGen.refl
            · intro r hr
              have hr' : r ∈ List.filter (fun q => q.formulaId == fid) snap.rows := hr
              refine ⟨List.mem_of_mem_filter hr', ?_⟩
              have := List.of_mem_filter hr'
              simpa using this
          | ok st0 =>
            rw [hacc] at h
            simp at h

/-- `buildBatchProductionReportData` in terms of the quantity-independent
resolution pipeline. -/
theorem buildBatchProductionReportData_eq (snap : Snapshot) (fid : Nat)
    (q : ℚ) (d : String) :
    buildBatchProductionReportData snap fid q d =
      match resolveFormula snap fid with
      | .error e => .error e
      | .ok (formula, baseTotal, st) =>
        .ok (assembleReport ⟨formula, q, baseTotal, q / baseTotal, st⟩ d
          (st.acc.map (fun p => p.1))) := by
  unfold buildBatchProductionReportData buildReportCore
  cases resolveFormula snap fid with
  | error e => rfl
  | ok p =>
    obtain ⟨formula, baseTotal, st⟩ := p
    rfl

/-- `buildReportWithOrder` in terms of the resolution pipeline. -/
theorem buildReportWithOrder_eq (snap : Snapshot) (fid : Nat) (q : ℚ)
    (d : String) (ord : List Nat) :
    buildReportWithOrder snap fid q d ord =
      match resolveFormula snap fid with
      | .error e => .error e
      | .ok (formula, baseTotal, st) =>
        .ok (assembleReport ⟨formula, q, baseTotal, q / baseTotal, st⟩ d ord) := by
  unfold buildReportWithOrder buildReportCore
  cases resolveFormula snap fid with
  | error e => rfl
  | ok p =>
    obtain ⟨formula, baseTotal, st⟩ := p
    rfl

/-! ## Helpers for the claim theorems -/

theorem foldl_add_normalize (f : FormulaIngredient → ℚ) :
    ∀ (l : List FormulaIngredient) (a : ℚ),
      l.foldl (fun acc ing => acc + f ing) a = a + (l.map f).sum := by
  intro l
  induction l with
  | nil => intro a; simp
  | cons x xs ih =>
    intro a
    simp only [List.foldl_cons, List.map_cons, List.sum_cons]
    rw [ih]
    ring

/-- Every reference edge of the diamond snapshot goes from formula 1 to
formula 2. -/
theorem snapDiamond_edge (a b : Nat) (h : refEdge snapDiamond.rows a b) :
    a = 1 ∧ b = 2 := by
  obtain ⟨r, hr, hfid, hsub⟩ := h
  fin_cases hr <;> simp_all

theorem snapDiamond_transGen_src (z w : Nat)
    (h : Relation.TransGen (refEdge snapDiamond.rows) z w) : z = 1 := by
  induction h with
  | single e => exact (snapDiamond_edge _ _ e).1
  | tail _ _ ih => exact ih

theorem snapDiamond_transGen_tgt (z w : Nat)
    (h : Relation.TransGen (refEdge snapDiamond.rows) z w) : w = 2 := by
  cases h with
  | single e => exact (snapDiamond_edge _ _ e).2
  | tail _ e => exact (snapDiamond_edge _ _ e).2

/-- The diamond snapshot's reference graph is acyclic. -/
theorem snapDiamond_acyclic : AcyclicFrom snapDiamond.rows 1 := by
  intro x _ htg
  have h1 := snapDiamond_transGen_src x x htg
  have h2 := snapDiamond_transGen_tgt x x htg
  subst h1
  exact absurd h2 (by simp)

/-! ## Claim theorems -/

/-- C6: the unit normalizer is a pure total function: for every amount and
every unit string, after trimming whitespace and lower-casing, `mg` divides
the amount by 1000, `kg` multiplies it by 1000, and `g`, `ml`, blank or any
unrecognized unit leaves it unchanged; being a Lean function over `ℚ` and
`String`, it never fails. -/
theorem claim_C6_normalizeAmount_spec (amount : ℚ) (unit : String) :
    (goLower (goTrim unit) = "mg" → normalizeAmount amount unit = amount / 1000) ∧
    (goLower (goTrim unit) = "kg" → normalizeAmount amount unit = amount * 1000) ∧
    (goLower (goTrim unit) ≠ "mg" → goLower (goTrim unit) ≠ "kg" →
      normalizeAmount amount unit = amount) := by
  refine ⟨?_, ?_, ?_⟩
  · intro h
    simp [normalizeAmount, h]
  · intro h
    have hne : goLower (goTrim unit) ≠ "mg" := by
      rw [h]; decide
    simp [normalizeAmount, h, hne]
  · intro h1 h2
    unfold normalizeAmount
    simp only [h1, h2, if_false]
    split <;> rfl

theorem claim_C6_normalizeAmount_spec_witness :
    goLower (goTrim (" MG ")) = "mg" ∧ normalizeAmount 7 (" MG ") = 7 / 1000 ∧
    goLower (goTrim ("kG")) = "kg" ∧ normalizeAmount 7 ("kG") = 7 * 1000 ∧
    normalizeAmount 7 ("ml") = 7 ∧ normalizeAmount 7 ("") = 7 ∧
    normalizeAmount 7 ("bogus") = 7 :=
  ⟨by decide, (claim_C6_normalizeAmount_spec 7 (" MG ")).1 (by decide),
   by decide, (claim_C6_normalizeAmount_spec 7 ("kG")).2.1 (by decide),
   (claim_C6_normalizeAmount_spec 7 ("ml")).2.2 (by decide) (by decide),
   (claim_C6_normalizeAmount_spec 7 ("")).2.2 (by decide) (by decide),
   (claim_C6_normalizeAmount_spec 7 ("bogus")).2.2 (by decide) (by decide)⟩

/-- C2: (a) whenever the sub-formula reference graph reachable from the
target is acyclic — in particular for the diamond `snapDiamond`, where two
sibling rows reference the same sub-formula — the report builder never
fails with `CircularReference`; (b) for the cyclic snapshot `snapCyclic`
(`A` references `B` and `B` references `A`), it fails with
`CircularReference` for every positive target quantity; no report value is
produced alongside the error (`Except` carries exactly one of the two). -/
theorem claim_C2_circular_reference :
    (∀ (snap : Snapshot) (fid : Nat) (q : ℚ) (d : String),
      AcyclicFrom snap.rows fid →
      buildBatchProductionReportData snap fid q d ≠ .error .circularReference) ∧
    (∀ q : ℚ, 0 < q →
      buildBatchProductionReportData snapCyclic 1 q ("20250102") =
        .error .circularReference) := by
  constructor
  · intro snap fid q d hacyc h
    rw [buildBatchProductionReportData_eq] at h
    cases hres : resolveFormula snap fid with
    | error e =>
      rw [hres] at h
      simp only [Except.error.injEq] at h
      subst h
      exact resolveFormula_acyclic_ne_circular snap fid hacyc hres
    | ok p =>
      obtain ⟨formula, baseTotal, st⟩ := p
      rw [hres] at h
      simp at h
  · intro q _
    rw [buildBatchProductionReportData_eq]
    rw [show resolveFormula snapCyclic 1 = .error .circularReference from by decide]

theorem claim_C2_circular_reference_witness :
    AcyclicFrom snapDiamond.rows 1 ∧
    buildBatchProductionReportData snapDiamond 1 20 ("20250102") ≠
      .error .circularReference ∧
    (0 : ℚ) < 7 ∧
    buildBatchProductionReportData snapCyclic 1 7 ("20250102") =
      .error .circularReference :=
  ⟨snapDiamond_acyclic,
   claim_C2_circular_reference.1 snapDiamond 1 20 ("20250102") snapDiamond_acyclic,
   by norm_num,
   claim_C2_circular_reference.2 7 (by norm_num)⟩

/-- A snapshot whose target formula exists but has zero composition rows. -/
def snapEmptyTarget : Snapshot :=
  { formulas := [⟨1, "F", 1⟩], rows := [], chems := [] }

/-- The full report `buildBatchProductionReportData snapB 1 30 "20250102"`
produces (scenario B at target 30). -/
def reportB30 : BatchProductionReportData :=
  { formulaName := "F"
    formulaVersion := 1
    targetQuantity := 30
    targetUnit := "g"
    baseBatchQuantity := 15
    baseBatchUnit := "g"
    scaleFactor := 2
    lotNumber := "PERF-20250102-001"
    runDate := "20250102"
    ingredients :=
      [ { order := 1, ingredientName := "X", casNumber := "", pyramid := "base",
          pyramidLabel := "Base", baseQuantity := 13, finalQuantity := 26, unit := "g" }
      , { order := 2, ingredientName := "Y", casNumber := "", pyramid := "top",
          pyramidLabel := "Top", baseQuantity := 2, finalQuantity := 4, unit := "g" } ] }

example : buildBatchProductionReportData snapB 1 30 ("20250102") = .ok reportB30 := by decide

/-- C9: `FormulaNotFound` is raised exactly when the target formula id is
absent from the formulas table; a composition row whose sub-formula
reference points at an id with no rows in the snapshot — including an id
that exists nowhere at all, as in `snapDanglingSub` — fails resolution with
`EmptyComposition` instead, never `FormulaNotFound`. -/
theorem claim_C9_formulaNotFound_only_for_target :
    (∀ (snap : Snapshot) (fid : Nat) (q : ℚ) (d : String),
      buildBatchProductionReportData snap fid q d = .error .formulaNotFound ↔
        snap.formulas.find? (fun f => f.id == fid) = none) ∧
    buildBatchProductionReportData snapDanglingSub 1 7 ("20250102") =
      .error .emptyComposition := by
  constructor
  · intro snap fid q d
    rw [buildBatchProductionReportData_eq]
    cases hres : resolveFormula snap fid with
    | error e =>
      constructor
      · intro h
        simp only [Except.error.injEq] at h
        subst h
        exact (resolveFormula_formulaNotFound_iff snap fid).mp hres
      · intro h
        have := (resolveFormula_formulaNotFound_iff snap fid).mpr h
        rw [hres] at this
        simp only [Except.error.injEq] at this
        rw [this]
    | ok p =>
      obtain ⟨formula, baseTotal, st⟩ := p
      constructor
      · intro h
        simp at h
      · intro h
        have := (resolveFormula_formulaNotFound_iff snap fid).mpr h
        rw [hres] at this
        simp at this
  · decide

theorem claim_C9_formulaNotFound_only_for_target_witness :
    buildBatchProductionReportData snapSingle 99 5 ("20250102") =
      .error .formulaNotFound ∧
    ¬ buildBatchProductionReportData snapSingle 1 5 ("20250102") =
      .error .formulaNotFound :=
  ⟨(claim_C9_formulaNotFound_only_for_target.1 snapSingle 99 5 ("20250102")).mpr
    (by decide),
   fun h => absurd
    ((claim_C9_formulaNotFound_only_for_target.1 snapSingle 1 5 ("20250102")).mp h)
    (by decide)⟩

/-- C8: (a) when the target formula exists in the formulas table but has
zero composition rows, the report builder fails with `EmptyComposition`;
(b) on any successful build, every formula reached from the target through
live sub-formula references (the branches the resolver actually expands)
has a non-empty composition — contrapositively, a reached empty formula
aborts the build with no partial report; (c) concretely, a target whose
sub-formula `S` has zero rows fails with `EmptyComposition`
(`snapNestedEmpty`). -/
theorem claim_C8_empty_composition :
    (∀ (snap : Snapshot) (fid : Nat) (q : ℚ) (d : String),
      (snap.formulas.find? (fun f => f.id == fid)).isSome →
      rowsOf snap.rows fid = [] →
      buildBatchProductionReportData snap fid q d = .error .emptyComposition) ∧
    (∀ (snap : Snapshot) (fid : Nat) (q : ℚ) (d : String)
      (rep : BatchProductionReportData),
      buildBatchProductionReportData snap fid q d = .ok rep →
      ∀ s, Relation.ReflTransGen (liveEdge snap.rows) fid s →
        rowsOf snap.rows s ≠ []) ∧
    buildBatchProductionReportData snapNestedEmpty 1 7 ("20250102") =
      .error .emptyComposition := by
  refine ⟨?_, ?_, by decide⟩
  · intro snap fid q d hsome hrows
    rw [buildBatchProductionReportData_eq]
    obtain ⟨formula0, hfind⟩ := Option.isSome_iff_exists.mp hsome
    unfold resolveFormula
    rw [hfind]
    simp only [hrows]
    rfl
  · intro snap fid q d rep h s hrtg
    rw [buildBatchProductionReportData_eq] at h
    cases hres : resolveFormula snap fid with
    | error e => rw [hres] at h; simp at h
    | ok p =>
      obtain ⟨formula, baseTotal, st⟩ := p
      obtain ⟨_, _, _, _, _, _, hlive⟩ :=
        resolveFormula_ok_props snap fid formula baseTotal st hres
      exact hlive s hrtg

theorem claim_C8_empty_composition_witness :
    ((snapEmptyTarget.formulas.find? (fun f => f.id == 1)).isSome ∧
      rowsOf snapEmptyTarget.rows 1 = [] ∧
      buildBatchProductionReportData snapEmptyTarget 1 5 ("20250102") =
        .error .emptyComposition) ∧
    (buildBatchProductionReportData snapB 1 30 ("20250102") = .ok reportB30 ∧
      rowsOf snapB.rows 1 ≠ []) :=
  ⟨⟨by decide, by decide,
    claim_C8_empty_composition.1 snapEmptyTarget 1 5 ("20250102") (by decide) (by decide)⟩,
   ⟨by decide,
    claim_C8_empty_composition.2.1 snapB 1 30 ("20250102") reportB30 (by decide) 1
      Relation.ReflTransGen.refl⟩⟩

/-- C10: a composition row referencing neither a raw ingredient nor a
sub-formula (or whose sub-formula id is 0) is still summed into the owning
formula's base total by the total calculator — the total is the sum over
*all* direct rows — while the accumulator's traversal steps over it without
touching any state; concretely (`snapPhantom`), two such 5 g rows raise the
base total from 10 to 20, halving the scale factor, and produce no report
rows. -/
theorem claim_C10_phantom_rows :
    (∀ (src : List FormulaIngredient) (id : Nat) (v : ℚ) (m : Memo),
      computeFormulaTotal src id [] [] = .ok (v, m) →
      v = ((rowsOf src id).map (fun r => normalizeAmount r.amount r.unit)).sum) ∧
    (∀ (src : List FormulaIngredient) (chems : List AromaChemical) (fuel : Nat)
      (ing : FormulaIngredient) (rest : List FormulaIngredient) (factor : ℚ)
      (path : List Nat) (st : AccSt),
      ing.aromaChemicalID = none →
      (ing.subFormulaID = none ∨ ing.subFormulaID = some 0) →
      accRows src chems (fuel + 1) (ing :: rest) factor path st =
        accRows src chems fuel rest factor path st) ∧
    (buildBatchProductionReportData snapPhantom 1 20 ("20250102")).map
      (fun r => (r.baseBatchQuantity, r.scaleFactor,
        r.ingredients.map (fun i => (i.ingredientName, i.finalQuantity)))) =
      .ok (20, 1, [("X", 10)]) := by
  refine ⟨?_, ?_, by decide⟩
  · intro src id v m h
    obtain ⟨hval, _, _, _⟩ :=
      computeFormulaTotal_ok src id [] [] v m (memoWF_nil src) h
    rw [hval]
    unfold formulaTotalValue
    rw [foldl_add_normalize]
    ring
  · intro src chems fuel ing rest factor path st hcid hsub
    rw [accRows]
    by_cases hle : normalizeAmount ing.amount ing.unit * factor ≤ 0
    · rw [if_pos hle]
    · rw [if_neg hle]
      rcases hsub with hsub | hsub <;> simp [hcid, hsub]

theorem claim_C10_phantom_rows_witness :
    computeFormulaTotal snapPhantom.rows 1 [] [] = .ok (20, [(1, 20)]) ∧
    (20 : ℚ) = ((rowsOf snapPhantom.rows 1).map
      (fun r => normalizeAmount r.amount r.unit)).sum ∧
    accRows snapPhantom.rows snapPhantom.chems 4
        ([⟨1, 5, "g", none, none⟩, ⟨1, 5, "g", none, some 0⟩]) 1 [1] ⟨[], []⟩ =
      accRows snapPhantom.rows snapPhantom.chems 3
        ([⟨1, 5, "g", none, some 0⟩]) 1 [1] ⟨[], []⟩ :=
  ⟨by decide,
   claim_C10_phantom_rows.1 snapPhantom.rows 1 20 ([(1, 20)]) (by decide),
   claim_C10_phantom_rows.2.1 snapPhantom.rows snapPhantom.chems 3
     ⟨1, 5, "g", none, none⟩ ([⟨1, 5, "g", none, some 0⟩]) 1 [1] ⟨[], []⟩
     rfl (Or.inl rfl)⟩

/-! ## Emission helpers -/

/-- With a non-positive scale factor and a well-formed accumulator, every
row is filtered out of the report (its final quantity would be ≤ 0). -/
theorem emittedRows_nil_of_scale_nonpos (chems : List AromaChemical) (st : AccSt)
    (scale : ℚ) (ha : AccWF chems st.acc) (hs : scale ≤ 0) (ord : List Nat) :
    emittedRows st scale ord = [] := by
  unfold emittedRows
  rw [List.filterMap_eq_nil_iff]
  intro cid _
  cases hfind : st.acc.find? (fun p => p.1 == cid) with
  | none => rfl
  | some p =>
    have hmem := List.mem_of_find?_eq_some hfind
    obtain ⟨hpos, _⟩ := ha p hmem
    dsimp only [emitRow]
    rw [if_pos (mul_nonpos_of_nonneg_of_nonpos (le_of_lt hpos) hs)]

/-- Inverting one emitted row. -/
theorem emitRow_some_inv (scale : ℚ) (t : ReportIngredientTotal)
    (row : BatchProductionReportIngredient) (h : emitRow scale t = some row) :
    row.baseQuantity = t.baseAmount ∧ row.finalQuantity = t.baseAmount * scale ∧
    row.ingredientName = t.chemical.ingredientName := by
  dsimp only [emitRow] at h
  split at h
  · simp at h
  · simp only [Option.some.injEq] at h
    subst h
    exact ⟨rfl, rfl, rfl⟩

/-- A member of an emitted row list comes from an accumulator entry found by
its chemical id. -/
theorem mem_emittedRows_inv (st : AccSt) (scale : ℚ) (ord : List Nat)
    (row : BatchProductionReportIngredient) (h : row ∈ emittedRows st scale ord) :
    ∃ cid p, st.acc.find? (fun q => q.1 == cid) = some p ∧
      emitRow scale p.2 = some row := by
  unfold emittedRows at h
  rcases List.mem_filterMap.mp h with ⟨cid, _, hcid⟩
  cases hfind : st.acc.find? (fun q => q.1 == cid) with
  | none => rw [hfind] at hcid; simp at hcid
  | some p =>
    rw [hfind] at hcid
    exact ⟨cid, p, hfind, hcid⟩

/-- Rank assignment is invisible to any rank-blind projection. -/
theorem assignOrdersFrom_map_order_blind {α : Type} (f : BatchProductionReportIngredient → α)
    (hf : ∀ r n, f { r with order := n } = f r) :
    ∀ (n : Nat) (l : List BatchProductionReportIngredient),
      (assignOrdersFrom n l).map f = l.map f := by
  intro n l
  induction l generalizing n with
  | nil => simp [assignOrdersFrom]
  | cons x xs ih => simp [assignOrdersFrom, hf, ih]

/-- A member of a rank-assigned list agrees with some member of the
original list on everything but the rank. -/
theorem mem_assignOrdersFrom_inv (row : BatchProductionReportIngredient) :
    ∀ (n : Nat) (l : List BatchProductionReportIngredient),
      row ∈ assignOrdersFrom n l → ∃ r0 ∈ l, stripOrder row = stripOrder r0 := by
  intro n l
  induction l generalizing n with
  | nil => intro h; simp [assignOrdersFrom] at h
  | cons x xs ih =>
    intro h
    rcases List.mem_cons.mp h with h | h
    · refine ⟨x, List.mem_cons_self x xs, ?_⟩
      rw [h]
      rfl
    · obtain ⟨r0, hr0, he⟩ := ih (n + 1) h
      exact ⟨r0, List.mem_cons_of_mem _ hr0, he⟩

/-- C3 counterexample: the core accepts a zero target quantity.  With the
one-row snapshot `snapSingle`, `buildReport(F, 0)` does *not* fail with
`InvalidQuantity` (or at all): it succeeds and every row is filtered out of
the report by the `finalQuantity > 0` emission guard. -/
theorem claim_C3_counterexample :
    buildBatchProductionReportData snapSingle 1 0 ("20250102") ≠
      .error .invalidQuantity ∧
    (buildBatchProductionReportData snapSingle 1 0 ("20250102")).map
      (fun r => r.ingredients) = .ok [] := by
  constructor
  · decide
  · decide

/-- C3 amended: the `targetQuantity > 0` validation lives in the HTTP
handler `GenerateBatchProductionReport`, which rejects a non-positive
quantity before the core runs; the core itself
(`buildBatchProductionReportData`) accepts a non-positive quantity and — on
an otherwise resolvable formula — returns a report whose row list is empty,
raising `InvalidQuantity` only for a non-positive base total. -/
theorem claim_C3_quantity_validation :
    (∀ q : ℚ, q ≤ 0 → handlerRejectsTargetQuantity q = true) ∧
    (∀ (snap : Snapshot) (fid : Nat) (q : ℚ) (d : String)
      (rep : BatchProductionReportData),
      q ≤ 0 → buildBatchProductionReportData snap fid q d = .ok rep →
      rep.ingredients = []) := by
  constructor
  · intro q hq
    unfold handlerRejectsTargetQuantity
    simpa using hq
  · intro snap fid q d rep hq h
    rw [buildBatchProductionReportData_eq] at h
    cases hres : resolveFormula snap fid with
    | error e => rw [hres] at h; simp at h
    | ok p =>
      obtain ⟨formula, baseTotal, st⟩ := p
      rw [hres] at h
      simp only [Except.ok.injEq] at h
      obtain ⟨_, _, hbt, _, ha, _, _⟩ :=
        resolveFormula_ok_props snap fid formula baseTotal st hres
      have hscale : q / baseTotal ≤ 0 := div_nonpos_of_nonpos_of_nonneg hq (le_of_lt hbt)
      subst h
      show assignOrders (sortBatchProductionIngredients
        (emittedRows st (q / baseTotal) (st.acc.map (fun p => p.1)))) = []
      rw [emittedRows_nil_of_scale_nonpos snap.chems st (q / baseTotal) ha hscale]
      rfl

/-- The report the core produces for `snapSingle` at target quantity 0. -/
def reportSingle0 : BatchProductionReportData :=
  { formulaName := "F"
    formulaVersion := 1
    targetQuantity := 0
    targetUnit := "g"
    baseBatchQuantity := 10
    baseBatchUnit := "g"
    scaleFactor := 0
    lotNumber := "PERF-20250102-001"
    runDate := "20250102"
    ingredients := [] }

theorem claim_C3_quantity_validation_witness :
    handlerRejectsTargetQuantity 0 = true ∧
    buildBatchProductionReportData snapSingle 1 0 ("20250102") = .ok reportSingle0 ∧
    reportSingle0.ingredients = [] :=
  ⟨claim_C3_quantity_validation.1 0 (le_refl 0),
   by decide,
   claim_C3_quantity_validation.2 snapSingle 1 0 ("20250102") reportSingle0
     (le_refl 0) (by decide)⟩

/-- C1: (a) scenario B concretely — formula `F` holds 10 g of `X` and 5 g of
sub-formula `S` with `S` = 3 g `X` + 2 g `Y`; `buildReport(F, 30)` succeeds
with base total 15 and scale factor 2, reporting exactly the rows `X` (rank
1, 26 g) then `Y` (rank 2, 4 g); (b) in general, every reported row's
quantities equal the per-path contribution sum for its chemical —
`baseQuantity` is the sum of each reference path's independently scaled
contribution (`pathContribution`), and `finalQuantity` is that sum times the
scale factor `targetQuantity / baseTotal`. -/
theorem claim_C1_path_accumulation :
    ((buildBatchProductionReportData snapB 1 30 ("20250102")).map
      (fun r => (r.baseBatchQuantity, r.scaleFactor,
        r.ingredients.map (fun i => (i.order, i.ingredientName, i.finalQuantity)))) =
      .ok (15, 2, [(1, "X", 26), (2, "Y", 4)])) ∧
    (∀ (snap : Snapshot) (fid : Nat) (q : ℚ) (d : String)
      (rep : BatchProductionReportData),
      buildBatchProductionReportData snap fid q d = .ok rep →
      ∀ row ∈ rep.ingredients, ∃ cid,
        row.baseQuantity = pathContribution snap fid cid ∧
        row.finalQuantity =
          pathContribution snap fid cid * (q / formulaTotalValue snap.rows fid)) := by
  refine ⟨by decide, ?_⟩
  intro snap fid q d rep h row hrow
  rw [buildBatchProductionReportData_eq] at h
  cases hres : resolveFormula snap fid with
  | error e => rw [hres] at h; simp at h
  | ok p =>
    obtain ⟨formula, baseTotal, st⟩ := p
    rw [hres] at h
    simp only [Except.ok.injEq] at h
    obtain ⟨_, hbt, _, _, _, hcontrib, _⟩ :=
      resolveFormula_ok_props snap fid formula baseTotal st hres
    subst h
    have hrow' : row ∈ assignOrders (sortBatchProductionIngredients
        (emittedRows st (q / baseTotal) (st.acc.map (fun p => p.1)))) := hrow
    obtain ⟨r0, hr0, hstrip⟩ := mem_assignOrdersFrom_inv row 1 _ hrow'
    have hr0e : r0 ∈ emittedRows st (q / baseTotal) (st.acc.map (fun p => p.1)) :=
      (sortBatchProductionIngredients_perm _).subset hr0
    obtain ⟨cid, p, hfind, hemit⟩ := mem_emittedRows_inv _ _ _ r0 hr0e
    obtain ⟨hbase, hfinal, _⟩ := emitRow_some_inv _ _ r0 hemit
    have hacc : accAmount st.acc cid = p.2.baseAmount := by
      unfold accAmount
      rw [hfind]
    have hrb : row.baseQuantity = r0.baseQuantity := by
      have := congrArg BatchProductionReportIngredient.baseQuantity hstrip
      simpa [stripOrder] using this
    have hrf : row.finalQuantity = r0.finalQuantity := by
      have := congrArg BatchProductionReportIngredient.finalQuantity hstrip
      simpa [stripOrder] using this
    refine ⟨cid, ?_, ?_⟩
    · rw [hrb, hbase, ← hacc, hcontrib]
    · rw [hrf, hfinal, ← hacc, hcontrib, hbt]

theorem claim_C1_path_accumulation_witness :
    ∃ cid,
      (13 : ℚ) = pathContribution snapB 1 cid ∧
      (26 : ℚ) = pathContribution snapB 1 cid * (30 / formulaTotalValue snapB.rows 1) :=
  claim_C1_path_accumulation.2 snapB 1 30 ("20250102") reportB30 (by decide)
    { order := 1, ingredientName := "X", casNumber := "", pyramid := "base",
      pyramidLabel := "Base", baseQuantity := 13, finalQuantity := 26, unit := "g" }
    (by decide)

/-- C4 counterexample: global three-key orderedness fails on the code.  In
`snapEpsChain` the three same-rank rows have quantities `10`,
`10 + 9·10⁻⁷` and `10 + 18·10⁻⁷`: the `1e-6` tolerance ties the adjacent
pairs (so their name order applies) but not the outer pair (where quantity
order applies), a cyclic constraint no row order satisfies; the built
report indeed contains a pair of rows in claimed-wrong relative order. -/
theorem claim_C4_counterexample :
    (buildBatchProductionReportData snapEpsChain 1 epsChainTotal ("20250102")).map
      (fun r => pairwiseOrderedB r.ingredients) = .ok false := by decide

/-- C4 amended: report rows are stably sorted by the three tie-break keys —
pyramid rank ascending (`base` 0 … `top` 4, unrecognized/unset 5), then
final quantity descending under the `1e-6` tolerance, then lower-cased name
ascending — in the adjacent-pair sense: no row compares strictly below its
immediate predecessor, and each row's 1-based rank equals its position.
Global pairwise orderedness can fail (only) when the `1e-6` quantity
tolerance ties non-transitively, as in `claim_C4_counterexample`. -/
theorem claim_C4_sort_policy :
    ∀ (snap : Snapshot) (fid : Nat) (q : ℚ) (d : String)
      (rep : BatchProductionReportData),
      buildBatchProductionReportData snap fid q d = .ok rep →
      List.Chain' (fun a b => batchIngredientLt b a = false) rep.ingredients ∧
      ∀ i (h : i < rep.ingredients.length),
        (rep.ingredients.get ⟨i, h⟩).order = i + 1 := by
  intro snap fid q d rep h
  rw [buildBatchProductionReportData_eq] at h
  cases hres : resolveFormula snap fid with
  | error e => rw [hres] at h; simp at h
  | ok p =>
    obtain ⟨formula, baseTotal, st⟩ := p
    rw [hres] at h
    simp only [Except.ok.injEq] at h
    subst h
    constructor
    · show List.Chain' _ (assignOrders (sortBatchProductionIngredients _))
      exact assignOrdersFrom_chain' 1 _ (sortBatchProductionIngredients_chain' _)
    · intro i hlen
      have hlen1 : i < (assignOrdersFrom 1 (sortBatchProductionIngredients
          (emittedRows st (q / baseTotal)
            (st.acc.map (fun p => p.1))))).length := hlen
      have hlen2 : i < (sortBatchProductionIngredients
          (emittedRows st (q / baseTotal)
            (st.acc.map (fun p => p.1)))).length := by
        rw [assignOrdersFrom_length] at hlen1
        exact hlen1
      have := assignOrdersFrom_get 1 (sortBatchProductionIngredients
        (emittedRows st (q / baseTotal) (st.acc.map (fun p => p.1)))) i hlen1 hlen2
      show (List.get (assignOrdersFrom 1 _) ⟨i, hlen1⟩).order = i + 1
      rw [this]
      show 1 + i = i + 1
      omega

theorem claim_C4_sort_policy_witness :
    List.Chain' (fun a b => batchIngredientLt b a = false) reportB30.ingredients ∧
    (reportB30.ingredients.get ⟨0, by decide⟩).order = 0 + 1 :=
  ⟨(claim_C4_sort_policy snapB 1 30 ("20250102") reportB30 (by decide)).1,
   (claim_C4_sort_policy snapB 1 30 ("20250102") reportB30 (by decide)).2 0 (by decide)⟩

/-- C5 counterexample: the report depends on Go's randomized map iteration
order over the accumulator, which is not part of the inputs.  In
`snapNameTie` two distinct chemicals (`Rose`, `rOSE`) tie on all three
sort keys, so the stable sort preserves the iteration order: two runs over
the same snapshot, formula, quantity and timestamp that enumerate the
accumulator in the two possible orders produce different reports. -/
theorem claim_C5_counterexample :
    List.Perm [2, 1] [1, 2] ∧
    (buildReportWithOrder snapNameTie 1 10 ("20250102") [1, 2]).isOk = true ∧
    (buildReportWithOrder snapNameTie 1 10 ("20250102") [2, 1]).isOk = true ∧
    buildReportWithOrder snapNameTie 1 10 ("20250102") [2, 1] ≠
      buildReportWithOrder snapNameTie 1 10 ("20250102") [1, 2] := by
  exact ⟨by decide, by decide, by decide, by decide⟩

/-- C5 amended: two calls with identical inputs (same snapshot, formula id,
target quantity and clock value) and the same accumulator iteration order
produce identical reports; when the iteration orders differ (as Go's
randomized map `range` may), the reports still agree on all metadata —
including the lot number — and on the multiset of rows up to rank
assignment, but rows tying on all three sort keys may swap positions. -/
theorem claim_C5_determinism :
    ∀ (snap : Snapshot) (fid : Nat) (q : ℚ) (d : String)
      (ord1 ord2 : List Nat) (r1 r2 : BatchProductionReportData),
      buildReportWithOrder snap fid q d ord1 = .ok r1 →
      buildReportWithOrder snap fid q d ord2 = .ok r2 →
      List.Perm ord1 ord2 →
      { r1 with ingredients := [] } = { r2 with ingredients := [] } ∧
      List.Perm (r1.ingredients.map stripOrder) (r2.ingredients.map stripOrder) := by
  intro snap fid q d ord1 ord2 r1 r2 h1 h2 hperm
  rw [buildReportWithOrder_eq] at h1 h2
  cases hres : resolveFormula snap fid with
  | error e => rw [hres] at h1; simp at h1
  | ok p =>
    obtain ⟨formula, baseTotal, st⟩ := p
    rw [hres] at h1 h2
    simp only [Except.ok.injEq] at h1 h2
    subst h1
    subst h2
    refine ⟨rfl, ?_⟩
    have hmap1 : (assembleReport ⟨formula, q, baseTotal, q / baseTotal, st⟩ d
        ord1).ingredients.map stripOrder =
        (sortBatchProductionIngredients
          (emittedRows st (q / baseTotal) ord1)).map stripOrder :=
      assignOrdersFrom_map_stripOrder 1 _
    have hmap2 : (assembleReport ⟨formula, q, baseTotal, q / baseTotal, st⟩ d
        ord2).ingredients.map stripOrder =
        (sortBatchProductionIngredients
          (emittedRows st (q / baseTotal) ord2)).map stripOrder :=
      assignOrdersFrom_map_stripOrder 1 _
    rw [hmap1, hmap2]
    have hperm1 := (sortBatchProductionIngredients_perm
      (emittedRows st (q / baseTotal) ord1)).map stripOrder
    have hperm2 := (sortBatchProductionIngredients_perm
      (emittedRows st (q / baseTotal) ord2)).map stripOrder
    have hemitted : List.Perm (emittedRows st (q / baseTotal) ord1)
        (emittedRows st (q / baseTotal) ord2) := hperm.filterMap _
    exact hperm1.trans ((hemitted.map stripOrder).trans hperm2.symm)

/-- The report `buildReportWithOrder snapNameTie 1 10 "20250102" [1, 2]`
produces. -/
def reportTie12 : BatchProductionReportData :=
  { formulaName := "F"
    formulaVersion := 1
    targetQuantity := 10
    targetUnit := "g"
    baseBatchQuantity := 10
    baseBatchUnit := "g"
    scaleFactor := 1
    lotNumber := "PERF-20250102-001"
    runDate := "20250102"
    ingredients :=
      [ { order := 1, ingredientName := "Rose", casNumber := "", pyramid := "top",
          pyramidLabel := "Top", baseQuantity := 5, finalQuantity := 5, unit := "g" }
      , { order := 2, ingredientName := "rOSE", casNumber := "", pyramid := "top",
          pyramidLabel := "Top", baseQuantity := 5, finalQuantity := 5, unit := "g" } ] }

theorem claim_C5_determinism_witness :
    { reportTie12 with ingredients := [] } = { reportTie12 with ingredients := [] } ∧
    List.Perm (reportTie12.ingredients.map stripOrder)
      (reportTie12.ingredients.map stripOrder) :=
  claim_C5_determinism snapNameTie 1 10 ("20250102") [1, 2] [1, 2]
    reportTie12 reportTie12 (by decide) (by decide) (List.Perm.refl _)

/-- Doubling the scale factor doubles each emitted row's final quantity and
changes nothing else (the emission filter is invariant under doubling). -/
theorem emitRow_double (s : ℚ) (t : ReportIngredientTotal) :
    emitRow (2 * s) t =
      (emitRow s t).map (fun r => { r with finalQuantity := 2 * r.finalQuantity }) := by
  dsimp only [emitRow]
  have he : t.baseAmount * (2 * s) = 2 * (t.baseAmount * s) := by ring
  by_cases hle : t.baseAmount * s ≤ 0
  · rw [if_pos hle, if_pos (by rw [he]; linarith)]
    rfl
  · rw [if_neg hle, if_neg (by rw [he]; intro hcon; exact hle (by linarith))]
    show some _ = some _
    congr 1
    rw [he]

theorem emittedRows_double (st : AccSt) (s : ℚ) (ord : List Nat) :
    emittedRows st (2 * s) ord =
      (emittedRows st s ord).map (fun r => { r with finalQuantity := 2 * r.finalQuantity }) := by
  unfold emittedRows
  rw [List.map_filterMap]
  congr 1
  funext cid
  cases st.acc.find? (fun p => p.1 == cid) with
  | none => rfl
  | some p => exact emitRow_double s p.2

/-- C7 counterexample to index-wise scaling: in `snapDoubling` the two rows
tie within `1e-6` at target `doublingTotal` (scale 1) so the name tie-break
puts the smaller quantity first, but at the doubled target the tie breaks
and the quantity order applies — the rows swap, and the first row's final
quantity at `2×Q` is not twice the first row's final quantity at `Q`, nor
within the `1e-6` tolerance of it. -/
theorem claim_C7_counterexample :
    (buildBatchProductionReportData snapDoubling 1 doublingTotal ("20250102")).map
      (fun r => r.ingredients.map (fun i => i.finalQuantity)) =
      .ok [1, 1 + 75 / 100000000] ∧
    (buildBatchProductionReportData snapDoubling 1 (2 * doublingTotal) ("20250102")).map
      (fun r => r.ingredients.map (fun i => i.finalQuantity)) =
      .ok [2 + 15 / 10000000, 2] ∧
    ¬ ((2 : ℚ) + 15 / 10000000 = 2 * 1) ∧
    |((2 : ℚ) + 15 / 10000000) - 2 * 1| > 1 / 1000000 := by
  exact ⟨by decide, by decide, by decide, by decide⟩

/-- C7 amended: scaling is linear per ingredient rather than per row index:
whenever `buildReport(id, Q)` succeeds, `buildReport(id, 2×Q)` succeeds and
reports, as a multiset over (ingredient name, final quantity), exactly the
rows of the first report with final quantities doubled.  Row *positions*
can change, because doubling can break a `1e-6` quantity tie
(`claim_C7_counterexample`). -/
theorem claim_C7_scaling_linearity :
    ∀ (snap : Snapshot) (fid : Nat) (q : ℚ) (d : String)
      (r1 : BatchProductionReportData),
      buildBatchProductionReportData snap fid q d = .ok r1 →
      ∃ r2, buildBatchProductionReportData snap fid (2 * q) d = .ok r2 ∧
        List.Perm
          (r2.ingredients.map (fun i => (i.ingredientName, i.finalQuantity)))
          (r1.ingredients.map (fun i => (i.ingredientName, 2 * i.finalQuantity))) := by
  intro snap fid q d r1 h1
  rw [buildBatchProductionReportData_eq] at h1
  rw [buildBatchProductionReportData_eq]
  cases hres : resolveFormula snap fid with
  | error e => rw [hres] at h1; simp at h1
  | ok p =>
    obtain ⟨formula, baseTotal, st⟩ := p
    rw [hres] at h1
    simp only [Except.ok.injEq] at h1
    subst h1
    refine ⟨_, rfl, ?_⟩
    have hscale : 2 * q / baseTotal = 2 * (q / baseTotal) := mul_div_assoc 2 q baseTotal
    have hkey2 : (assembleReport ⟨formula, 2 * q, baseTotal, 2 * q / baseTotal, st⟩ d
        (st.acc.map (fun p => p.1))).ingredients.map
          (fun i => (i.ingredientName, i.finalQuantity)) =
        (sortBatchProductionIngredients (emittedRows st (2 * q / baseTotal)
          (st.acc.map (fun p => p.1)))).map
          (fun i => (i.ingredientName, i.finalQuantity)) :=
      assignOrdersFrom_map_order_blind
        (fun i => (i.ingredientName, i.finalQuantity)) (fun r n => rfl) 1 _
    have hkey1 : (assembleReport ⟨formula, q, baseTotal, q / baseTotal, st⟩ d
        (st.acc.map (fun p => p.1))).ingredients.map
          (fun i => (i.ingredientName, 2 * i.finalQuantity)) =
        (sortBatchProductionIngredients (emittedRows st (q / baseTotal)
          (st.acc.map (fun p => p.1)))).map
          (fun i => (i.ingredientName, 2 * i.finalQuantity)) :=
      assignOrdersFrom_map_order_blind
        (fun i => (i.ingredientName, 2 * i.finalQuantity)) (fun r n => rfl) 1 _
    rw [hkey2, hkey1]
    have hperm2 := (sortBatchProductionIngredients_perm (emittedRows st
      (2 * q / baseTotal) (st.acc.map (fun p => p.1)))).map
      (fun i => (i.ingredientName, i.finalQuantity))
    have hperm1 := (sortBatchProductionIngredients_perm (emittedRows st
      (q / baseTotal) (st.acc.map (fun p => p.1)))).map
      (fun i => (i.ingredientName, 2 * i.finalQuantity))
    refine hperm2.trans (List.Perm.trans ?_ hperm1.symm)
    rw [hscale, emittedRows_double]
    rw [List.map_map]
    rfl

/-- The report `buildBatchProductionReportData snapB 1 15 "20250102"`
produces (scenario B at target 15, scale 1). -/
def reportB15 : BatchProductionReportData :=
  { formulaName := "F"
    formulaVersion := 1
    targetQuantity := 15
    targetUnit := "g"
    baseBatchQuantity := 15
    baseBatchUnit := "g"
    scaleFactor := 1
    lotNumber := "PERF-20250102-001"
    runDate := "20250102"
    ingredients :=
      [ { order := 1, ingredientName := "X", casNumber := "", pyramid := "base",
          pyramidLabel := "Base", baseQuantity := 13, finalQuantity := 13, unit := "g" }
      , { order := 2, ingredientName := "Y", casNumber := "", pyramid := "top",
          pyramidLabel := "Top", baseQuantity := 2, finalQuantity := 2, unit := "g" } ] }

theorem claim_C7_scaling_linearity_witness :
    ∃ r2, buildBatchProductionReportData snapB 1 (2 * 15) ("20250102") = .ok r2 ∧
      List.Perm
        (r2.ingredients.map (fun i => (i.ingredientName, i.finalQuantity)))
        (reportB15.ingredients.map (fun i => (i.ingredientName, 2 * i.finalQuantity))) :=
  claim_C7_scaling_linearity snapB 1 15 ("20250102") reportB15 (by decide)

end Perfugo
